import Mathlib

/-!
Verification development for the self-update subsystem of the afx CLI
(src/cmd/self-update.go).

The development shallowly embeds:

* the semantic-version parser and comparator used by the command
  (the Masterminds/semver v3 library, the spec's "Version Comparator"
  component; the library is a dependency whose source is not under src/,
  so it is modelled from the spec's contract "standard semantic-versioning
  precedence rules" following the library's documented algorithm);
* the upgrade-notice computation of `run` (self-update.go lines 205-232),
  translated from the source;
* the control flow of `run` (automatic mode) and `selectTag`
  (interactive mode) as pure functions from an environment describing the
  collaborators' answers (network, prompt, filesystem) to a trace of
  observable events, a final world (the on-disk executable) and an outcome;
* the binary installer, modelled from the spec (section 4.4), since the
  installer itself (go-update / go-selfupdate) is library code not under
  src/ and only its callers appear in the repository.

Strings are modelled with Lean's String; Go compares strings byte-wise
which coincides with Lean's character-wise order on the ASCII strings
admitted by the semver grammar.
-/

/-- A parsed semantic version, as held by the comparator library
(Masterminds/semver v3 `Version`).  The library stores the pre-release
as a raw string and splits it on "." at comparison time; here `pre` is
stored already split (empty list = no pre-release).  `buildMeta` is the
build-metadata suffix; the comparator ignores it for precedence. -/
structure SemVer where
  major : Nat
  minor : Nat
  patch : Nat
  pre : List String
  buildMeta : String
deriving DecidableEq, Repr

/-- Characters allowed in a pre-release / build-metadata identifier:
`[0-9A-Za-z-]`. -/
def isPreChar (c : Char) : Bool := c.isDigit || c.isAlpha || c = '-'

/-- Value of a decimal digit string, most significant digit first
(the accumulator loop of Go's strconv.ParseUint, base 10). -/
def natOfDigits (cs : List Char) : Nat :=
  cs.foldl (fun a c => a * 10 + (c.toNat - 48)) 0

/-- Go's `strconv.ParseUint(s, 10, 64)`: succeeds exactly on non-empty
all-digit strings whose value fits in 64 bits (leading zeros allowed). -/
def parseUint64 (s : String) : Option Nat :=
  if (!s.isEmpty) && s.data.all Char.isDigit then
    (if natOfDigits s.data < 2 ^ 64 then some (natOfDigits s.data) else none)
  else none

/-- One optional `.digits` group of the loose semver grammar
`v?([0-9]+)(\.[0-9]+)?(\.[0-9]+)?...`: if the input starts with a dot it
must be followed by at least one digit (otherwise the whole parse fails,
as nothing else in the grammar can consume the dot). -/
def parseDotNum : List Char → Option (Option (List Char) × List Char)
  | '.' :: rest =>
    let d := rest.takeWhile Char.isDigit
    if d.isEmpty then none else some (some d, rest.dropWhile Char.isDigit)
  | cs => some (none, cs)

/-- A dotted identifier sequence `[0-9A-Za-z-]+(\.[0-9A-Za-z-]+)*` (the
pre-release or build-metadata group).  The maximal run of identifier
characters and dots is taken; the parse fails if the run is empty or has
an empty identifier (a leading, trailing or doubled dot), which is
exactly when the anchored regular expression of the library fails. -/
def parseDotted (cs : List Char) : Option (List String × List Char) :=
  let run := cs.takeWhile (fun c => isPreChar c || c = '.')
  if run.isEmpty then none
  else
    let parts := (String.mk run).splitOn "."
    if parts.any (fun p => p.isEmpty) then none
    else some (parts, cs.dropWhile (fun c => isPreChar c || c = '.'))

/-- Modelled from the spec: `parse(text) -> Version | fails` of the
Version Comparator (Masterminds/semver v3 `NewVersion`, a dependency not
under src/).  The loose grammar is
`v?([0-9]+)(\.[0-9]+)?(\.[0-9]+)?(-pre)?(\+meta)?` anchored at both ends;
absent minor/patch default to 0; each numeric segment must fit in 64
bits.  `MustParse` is this function with a panic on `none`. -/
def NewVersion (s : String) : Option SemVer :=
  let cs0 := s.data
  let cs1 := match cs0 with
    | 'v' :: rest => rest
    | _ => cs0
  let majD := cs1.takeWhile Char.isDigit
  let cs2 := cs1.dropWhile Char.isDigit
  if majD.isEmpty then none
  else
    match parseDotNum cs2 with
    | none => none
    | some (minD, cs3) =>
      match parseDotNum cs3 with
      | none => none
      | some (patD, cs4) =>
        let preRes : Option (List String × List Char) :=
          match cs4 with
          | '-' :: rest => parseDotted rest
          | cs => some ([], cs)
        match preRes with
        | none => none
        | some (preParts, cs5) =>
          let metaRes : Option (String × List Char) :=
            match cs5 with
            | '+' :: rest =>
              match parseDotted rest with
              | none => none
              | some (ps, r) => some (String.intercalate "." ps, r)
            | cs => some ("", cs)
          match metaRes with
          | none => none
          | some (metaStr, cs6) =>
            if cs6.isEmpty then
              match
                parseUint64 (String.mk majD),
                (minD.map (fun d => parseUint64 (String.mk d))).getD (some 0),
                (patD.map (fun d => parseUint64 (String.mk d))).getD (some 0)
              with
              | some mj, some mn, some pt =>
                some { major := mj, minor := mn, patch := pt,
                       pre := preParts, buildMeta := metaStr }
              | _, _, _ => none
            else none

/-- `Version.String()` of the comparator library: the canonical rendering
`major.minor.patch[-pre][+meta]` (the optional `v` and omitted segments
of the input are not reproduced). -/
def render (v : SemVer) : String :=
  Nat.repr v.major ++ "." ++ Nat.repr v.minor ++ "." ++ Nat.repr v.patch
    ++ (if v.pre.isEmpty then "" else "-" ++ String.intercalate "." v.pre)
    ++ (if v.buildMeta.isEmpty then "" else "+" ++ v.buildMeta)

/-- `compareSegment` of the comparator: three-way comparison of one
numeric segment. -/
def compareSegment (a b : Nat) : Int :=
  if a < b then -1 else if b < a then 1 else 0

/-- Go's `<` on strings: lexicographic byte-wise comparison (UTF-8 bytes
order exactly as code points, and the semver identifiers are ASCII
anyway), written out on the character lists. -/
def charListLt : List Char → List Char → Bool
  | [], [] => false
  | [], _ :: _ => true
  | _ :: _, [] => false
  | c :: cs, d :: ds =>
    if c.toNat < d.toNat then true
    else if d.toNat < c.toNat then false
    else charListLt cs ds

/-- `comparePrePart` of the comparator: three-way comparison of one
pre-release identifier (with "" as the padding value for exhausted
lists).  Numeric identifiers (per ParseUint, 64-bit) compare by value and
sort below alphanumeric ones; alphanumeric identifiers compare
lexicographically byte-wise (Go's `s > o`). -/
def comparePrePart (s o : String) : Int :=
  if s = o then 0
  else if s = "" then (if o ≠ "" then -1 else 1)
  else if o = "" then (if s ≠ "" then 1 else -1)
  else
    match parseUint64 s, parseUint64 o with
    | none, none => if charListLt o.data s.data then 1 else -1
    | some _, none => -1
    | none, some _ => 1
    | some si, some oi => if oi < si then 1 else -1

/-- `comparePrerelease` of the comparator: walk the two identifier lists
in parallel, padding the shorter one with "", returning the first
non-zero identifier comparison. -/
def comparePreParts : List String → List String → Int
  | [], [] => 0
  | [], o :: os =>
    let d := comparePrePart "" o
    if d ≠ 0 then d else comparePreParts [] os
  | s :: ss, [] =>
    let d := comparePrePart s ""
    if d ≠ 0 then d else comparePreParts ss []
  | s :: ss, o :: os =>
    let d := comparePrePart s o
    if d ≠ 0 then d else comparePreParts ss os
termination_by a b => a.length + b.length

/-- The `if d != 0 { return d }` chaining of the comparator: take the
first non-zero comparison. -/
def intLex (d r : Int) : Int := if d ≠ 0 then d else r

/-- The pre-release block of `Version.Compare`: no pre-release outranks
any pre-release; two pre-releases compare identifier-wise. -/
def comparePre (p q : List String) : Int :=
  match p, q with
  | [], [] => 0
  | [], _ :: _ => 1
  | _ :: _, [] => -1
  | a, b => comparePreParts a b

/-- Modelled from the spec: `compare(a, b) -> less | equal | greater` of
the Version Comparator (Masterminds/semver v3 `Version.Compare`, not
under src/), per standard semantic-versioning precedence: major, minor,
patch numerically, then a version without pre-release outranks one with,
then the pre-release identifier lists; build metadata is ignored. -/
def SemVer.compare (v o : SemVer) : Int :=
  intLex (compareSegment v.major o.major)
    (intLex (compareSegment v.minor o.minor)
      (intLex (compareSegment v.patch o.patch)
        (comparePre v.pre o.pre)))

/-- `Version.LessThan` of the comparator: `Compare < 0`. -/
def SemVer.lessThan (v o : SemVer) : Bool := SemVer.compare v o < 0

/-- `Version.GreaterThan` of the comparator: `Compare > 0`. -/
def SemVer.greaterThan (v o : SemVer) : Bool := SemVer.compare v o > 0

/-- No leading zero: a multi-character digit string may not start
with '0'. -/
def noLeadingZero : List Char → Bool
  | [] => true
  | [_] => true
  | c :: _ :: _ => c ≠ '0'

/-- A strictly valid (per the semver specification) pre-release
identifier: non-empty, over `[0-9A-Za-z-]`, and without leading zeros if
numeric.  (The loose parser accepts more, e.g. `1.0.0-01`; the order
theorems quantify over strictly valid versions.) -/
def validPart (p : String) : Bool :=
  (!p.isEmpty) && p.data.all isPreChar &&
    (if p.data.all Char.isDigit then noLeadingZero p.data else true)

/-- A version whose pre-release identifiers are all strictly valid. -/
def SemVer.ValidPre (v : SemVer) : Bool := v.pre.all validPart

/-! ## The upgrade-notice computation (self-update.go lines 205-232) -/

/-- Go map read `m[k]` with the zero value "" when the key is absent
(the `c.annotation[v.String()]` lookup of the source). -/
def mapGet (m : List (String × String)) (k : String) : String :=
  match m.find? (fun p => p.1 == k) with
  | some p => p.2
  | none => ""

/-- The `for v := range c.annotation { vs = append(vs, semver.MustParse(v)) }`
loop: parse every key, a parse failure being a panic (`none`). -/
def parseAll : List String → Option (List SemVer)
  | [] => some []
  | k :: ks =>
    match NewVersion k with
    | none => none
    | some v =>
      match parseAll ks with
      | none => none
      | some vs => some (v :: vs)

/-- One insertion step of the model of `sort.Sort(semver.Collection(vs))`:
the element is placed after every element strictly less than it
(`Less(i,j) = vs[i].LessThan(vs[j])`). -/
def insertV (x : SemVer) : List SemVer → List SemVer
  | [] => [x]
  | y :: ys => if SemVer.compare y x < 0 then y :: insertV x ys else x :: y :: ys

/-- Model of `sort.Sort(semver.Collection(vs))`: a comparison sort
consistent with the collection's `Less`.  (Go's sort is unstable and its
tie order unspecified; this model fixes one order consistent with
`Less`.) -/
def sortVersions : List SemVer → List SemVer
  | [] => []
  | x :: xs => insertV x (sortVersions xs)

/-- The `for _, v := range vs` message loop of `run` (lines 212-226):
per iteration the current and target version strings are re-parsed with
`semver.MustParse` (panic = `none`), the loop breaks at the first version
above the target, and a version strictly above the current version
contributes the annotation text for its canonical rendering, prefixed
with "- ". -/
def noticesLoop (annotTable : List (String × String)) (curStr tgtStr : String) :
    List SemVer → Option (List String)
  | [] => some []
  | v :: rest =>
    match NewVersion curStr with
    | none => none
    | some start =>
      match NewVersion tgtStr with
      | none => none
      | some stop =>
        if SemVer.lessThan stop v then some []
        else
          match noticesLoop annotTable curStr tgtStr rest with
          | none => none
          | some tail =>
            if SemVer.greaterThan v start then
              some (("- " ++ mapGet annotTable (render v)) :: tail)
            else some tail

/-- The whole upgrade-notice computation of `run` (lines 205-226): parse
all annotation keys (panicking on a malformed one), sort ascending, then
run the message loop.  `none` models a panic of `semver.MustParse`. -/
def computeMessages (annotTable : List (String × String)) (curStr tgtStr : String) :
    Option (List String) :=
  match parseAll (annotTable.map Prod.fst) with
  | none => none
  | some vs => noticesLoop annotTable curStr tgtStr (sortVersions vs)

/-- The annotation table built in `newSelfUpdateCmd` (the value is
wrapped in a green-color escape sequence, immaterial here). -/
def afxAnnotTable : List (String × String) :=
  [("0.1.11", "Run \x22afx state refresh --force\x22 at first!")]

/-! ## The command flows (`run` and `selectTag`) -/

/-- The downloaded release as reported by the release-repository
collaborator (go-selfupdate's `Release`): its parsed version and the
asset resolved for the running platform.  `Version()` returns the
canonical rendering of `version`. -/
structure Release where
  version : SemVer
  assetURL : String
  assetName : String
deriving DecidableEq, Repr

/-- Modelled from the spec: `lessOrEqual` of the Version Comparator as
used through go-selfupdate's `Release.LessOrEqual(other string)` (not
under src/): parse the argument and test `compare <= 0`; an unparsable
argument counts as "not less or equal" (an update is assumed). -/
def releaseLessOrEqual (r : Release) (other : String) : Bool :=
  match NewVersion other with
  | none => false
  | some p => SemVer.compare r.version p ≤ 0

/-- Result of `selfupdate.DetectLatest`: a transport error, a
"found=false" answer, or a release. -/
inductive DetectResult
  | transportError (e : String)
  | notFound
  | found (r : Release)
deriving DecidableEq, Repr

/-- The executable file on disk: its bytes and its permission mode. -/
structure FileRec where
  bytes : List Nat
  mode : Nat
deriving DecidableEq, Repr

/-- The mutable world the command can touch: the on-disk executable. -/
structure World where
  exe : FileRec
deriving DecidableEq, Repr

/-- One asset record as assembled by `selectTag` from the release JSON
(config.Asset).  Paths are modelled as lists of components
(`filepath.Join(a, b)` = `a ++ [b]`). -/
structure Asset where
  name : String
  home : List String
  path : List String
  url : String
deriving DecidableEq, Repr

/-- One asset of the GitHub release-list JSON (`name`,
`browser_download_url`). -/
structure AssetJson where
  name : String
  url : String
deriving DecidableEq, Repr

/-- One release of the GitHub release-list JSON (`tag_name`, `assets`). -/
structure ReleaseJson where
  tagName : String
  assets : List AssetJson
deriving DecidableEq, Repr

/-- Observable events of one invocation, in order. -/
inductive Event
  | netListReleases
  | netDetectLatest
  | promptSelect
  | promptConfirm
  | netDownload
  | unarchive
  | openFile (path : List String)
  | installUpdateTo (target : List String)
  | installApply (src : List String) (target : List String)
deriving DecidableEq, Repr

/-- Terminal outcomes of `run` (automatic mode).  `upToDate`, `declined`
and `completed` are the nil returns of the source; `panicked` models a
`semver.MustParse` panic. -/
inductive RunOutcome
  | failedUnsupportedBuild
  | failedDetect (e : String)
  | failedNoRelease (goos goarch : String)
  | upToDate
  | failedConsole (e : String)
  | declined
  | failedNoExe
  | failedUpdate (e : String)
  | panicked
  | completed (messages : List String)
deriving DecidableEq, Repr

/-- Whether the outcome is rendered as a failure of the command
(a non-nil error return, or a crash). -/
def RunOutcome.isError : RunOutcome → Bool
  | .upToDate => false
  | .declined => false
  | .completed _ => false
  | _ => true

/-- Terminal outcomes of `selectTag` (interactive mode). -/
inductive TagOutcome
  | failedHTTP (e : String)
  | failedDownload (e : String)
  | failedUnarchive (e : String)
  | failedOpen
  | failedNoExe
  | failedApply (e : String)
  | applied
deriving DecidableEq, Repr

/-- Whether the interactive outcome is a non-nil error return. -/
def TagOutcome.isError : TagOutcome → Bool
  | .applied => false
  | _ => true

/-- The collaborators' answers for one invocation: every blocking call
of `run` / `selectTag` reads its result here, so the two flows become
pure functions of the environment. -/
structure Env where
  /-- `selfupdate.DetectLatest(Repository)`. -/
  detect : DetectResult
  /-- the `survey.Confirm` answer (`error` = console failure). -/
  confirm : Except String Bool
  /-- `os.Executable()` (`none` = failure). -/
  exePath : Option (List String)
  /-- `selfupdate.UpdateTo` outcome; per the installer contract a failure
  leaves the executable untouched. -/
  updateTo : Except String Unit
  /-- the binary bytes `UpdateTo` installs on success. -/
  assetBytes : List Nat
  /-- `$HOME`. -/
  home : String
  /-- the GitHub releases-list response of `http.Get` (decoded). -/
  releases : Except String (List ReleaseJson)
  /-- the `survey.Select` answer; `none` models a cancelled/failed prompt,
  whose error the source discards, leaving the tag at its zero value "". -/
  ask : Option String
  /-- which asset the download step picks (an index), `none` = no match. -/
  pick : List Asset → Option Nat
  /-- `release.Unarchive` outcome. -/
  unarchive : Except String Unit
  /-- the filesystem after unarchiving: contents at a path, `none` =
  `os.Open` fails. -/
  file : List String → Option (List Nat)
  /-- `update.Apply` outcome given its source file opened. -/
  apply : Except String Unit

/-- Modelled from the spec: `config.GitHubRelease.Download` (pkg/config,
code of this repository not under src/): selects and fetches the asset
matching the platform from the release's assets, failing (NotFound) when
none matches — in particular when the asset list is empty. -/
def downloadAsset (env : Env) (assets : List Asset) : Except String Asset :=
  match env.pick assets with
  | none => Except.error "no asset found"
  | some i =>
    if h : i < assets.length then Except.ok (assets.get ⟨i, h⟩)
    else Except.error "no asset found"

/-- The `run` method of the self-update command (self-update.go lines
155-235), automatic mode: the version sentinel check, DetectLatest, the
up-to-date short circuit, the confirmation prompt, UpdateTo, and the
upgrade-notice block.  Returns the event trace, the final world and the
outcome. -/
def run (annotTable : List (String × String)) (version : String)
    (goos goarch : String) (env : Env) (w : World) :
    List Event × World × RunOutcome :=
  if version = "unset" then ([], w, .failedUnsupportedBuild)
  else
    match env.detect with
    | .transportError e => ([.netDetectLatest], w, .failedDetect e)
    | .notFound => ([.netDetectLatest], w, .failedNoRelease goos goarch)
    | .found latest =>
      if releaseLessOrEqual latest version then ([.netDetectLatest], w, .upToDate)
      else
        match env.confirm with
        | .error e => ([.netDetectLatest, .promptConfirm], w, .failedConsole e)
        | .ok false => ([.netDetectLatest, .promptConfirm], w, .declined)
        | .ok true =>
          match env.exePath with
          | none => ([.netDetectLatest, .promptConfirm], w, .failedNoExe)
          | some exe =>
            match env.updateTo with
            | .error e =>
              ([.netDetectLatest, .promptConfirm, .installUpdateTo exe], w,
                .failedUpdate e)
            | .ok _ =>
              let w' : World := { exe := { bytes := env.assetBytes, mode := w.exe.mode } }
              match computeMessages annotTable version (render latest.version) with
              | none =>
                ([.netDetectLatest, .promptConfirm, .installUpdateTo exe], w',
                  .panicked)
              | some msgs =>
                ([.netDetectLatest, .promptConfirm, .installUpdateTo exe], w',
                  .completed msgs)

/-- The `selectTag` method of the self-update command (self-update.go
lines 87-153), interactive mode: list releases, prompt for a tag (the
prompt's error is discarded by the source, so a cancelled prompt leaves
the tag ""), assemble the chosen release's assets with
Home = `$HOME/.afx`, download, unarchive, open the file named `afx` in
the asset's home, and hand it to `update.Apply` targeting the current
executable.  Note: the build version is never consulted. -/
def selectTag (env : Env) (w : World) : List Event × World × TagOutcome :=
  match env.releases with
  | .error e => ([.netListReleases], w, .failedHTTP e)
  | .ok body =>
    let tag := env.ask.getD ""
    let rel := body.find? (fun r => r.tagName == tag)
    let relAssets : List Asset :=
      ((rel.map (fun r => r.assets)).getD []).map (fun a =>
        { name := a.name, home := [env.home, ".afx"],
          path := [env.home, ".afx", a.name], url := a.url })
    match downloadAsset env relAssets with
    | .error e =>
      ([.netListReleases, .promptSelect, .netDownload], w, .failedDownload e)
    | .ok asset =>
      match env.unarchive with
      | .error e =>
        ([.netListReleases, .promptSelect, .netDownload, .unarchive], w,
          .failedUnarchive e)
      | .ok _ =>
        let p := asset.home ++ ["afx"]
        match env.file p with
        | none =>
          ([.netListReleases, .promptSelect, .netDownload, .unarchive,
            .openFile p], w, .failedOpen)
        | some contents =>
          match env.exePath with
          | none =>
            ([.netListReleases, .promptSelect, .netDownload, .unarchive,
              .openFile p], w, .failedNoExe)
          | some exe =>
            match env.apply with
            | .error e =>
              ([.netListReleases, .promptSelect, .netDownload, .unarchive,
                .openFile p, .installApply p exe], w, .failedApply e)
            | .ok _ =>
              ([.netListReleases, .promptSelect, .netDownload, .unarchive,
                .openFile p, .installApply p exe],
                { exe := { bytes := contents, mode := w.exe.mode } }, .applied)

/-- Outcome of the whole command, by mode. -/
inductive CmdOutcome
  | auto (o : RunOutcome)
  | tag (o : TagOutcome)
deriving DecidableEq, Repr

/-- The command dispatch of `newSelfUpdateCmd`'s RunE (lines 67-77):
with the hidden `--select` flag the interactive `selectTag` runs,
otherwise the automatic `run`.  (`meta.init`, which performs no network
or install work, is out of scope.) -/
def selfUpdateRunE (annotTable : List (String × String)) (version : String)
    (goos goarch : String) (optTag : Bool) (env : Env) (w : World) :
    List Event × World × CmdOutcome :=
  if optTag then
    match selectTag env w with
    | (tr, w', o) => (tr, w', .tag o)
  else
    match run annotTable version goos goarch env w with
    | (tr, w', o) => (tr, w', .auto o)

/-! ## The binary installer (spec section 4.4) -/

/-- Filesystem state the installer touches: the target executable and
the adjacent temporary file. -/
structure InstallFS where
  target : FileRec
  temp : Option (List Nat)
deriving DecidableEq, Repr

/-- Which installer step fails, if any (a crash or I/O error injected by
the environment). -/
inductive InstallFailure
  | writeTemp (written : Nat)
  | swap
deriving DecidableEq, Repr

/-- Result of one installer invocation. -/
inductive InstallResult
  | ok
  | errWrite
  | errVerify
  | errSwap
deriving DecidableEq, Repr

/-- Modelled from the spec: `install(sourceBytes, targetPath)` of the
Binary Installer (go-update's `Apply` / go-selfupdate's `UpdateTo`,
library code not under src/): write the new binary to a temporary file
adjacent to the target (a failure there can leave a partial temporary
file only), verify it is readable and non-empty, then atomically swap it
into the target preserving the target's mode; the swap either completes
fully or leaves the target as it was. -/
def install (src : List Nat) (failAt : Option InstallFailure) (fs : InstallFS) :
    InstallResult × InstallFS :=
  match failAt with
  | some (.writeTemp n) => (.errWrite, { fs with temp := some (src.take n) })
  | _ =>
    let fs1 : InstallFS := { fs with temp := some src }
    if src.isEmpty then (.errVerify, fs1)
    else
      match failAt with
      | some .swap => (.errSwap, fs1)
      | _ => (.ok, { target := { bytes := src, mode := fs.target.mode }, temp := none })

/-- A canonical decimal digit string: non-empty, all digits, no leading
zero (except the single "0"). -/
def CanonDigits (cs : List Char) : Prop :=
  cs ≠ [] ∧ (∀ c ∈ cs, c.isDigit = true) ∧ noLeadingZero cs = true

/-- The strict order a pre-release identifier comparison realizes:
numbers by value, numbers below strings, strings lexicographically. -/
def keyLt (s o : String) : Prop :=
  match parseUint64 s, parseUint64 o with
  | some a, some b => a < b
  | some _, none => True
  | none, some _ => False
  | none, none => charListLt s.data o.data = true

/-- Validity of a whole pre-release identifier list. -/
def ValidParts (l : List String) : Prop := ∀ p ∈ l, validPart p = true

/-- The strict precedence order the comparator realizes on versions. -/
def vLt (a b : SemVer) : Prop :=
  a.major < b.major ∨ (a.major = b.major ∧
    (a.minor < b.minor ∨ (a.minor = b.minor ∧
      (a.patch < b.patch ∨ (a.patch = b.patch ∧ comparePre a.pre b.pre = -1)))))

/-- The annotation table of the spec's worked example. -/
def exampleAnnotTable : List (String × String) :=
  [("1.2.0", "A"), ("1.3.0", "B"), ("2.0.0", "C")]

/-! ## Concrete environments for witnesses and counterexamples -/

/-- One release of the GitHub listing, as used in concrete runs. -/
def exampleRelease : ReleaseJson :=
  { tagName := "v1.0.0",
    assets := [{ name := "afx_linux_x86_64.tar.gz", url := "https://example/afx.tar.gz" }] }

/-- A baseline environment: detection finds nothing, prompts are
declined, the filesystem is empty. -/
def baseEnv : Env :=
  { detect := .notFound
    confirm := .ok false
    exePath := some ["", "usr", "local", "bin", "afx"]
    updateTo := .ok ()
    assetBytes := [1, 2, 3]
    home := "home"
    releases := .ok [exampleRelease]
    ask := none
    pick := fun _ => some 0
    unarchive := .ok ()
    file := fun _ => none
    apply := .ok () }

/-- An environment in which the interactive flow succeeds end to end:
the user picks the listed tag and the unarchived directory contains the
file `afx`. -/
def envInteractive : Env :=
  { baseEnv with
    ask := some "v1.0.0"
    file := fun p => if p = ["home", ".afx", "afx"] then some [9, 9] else none }

/-- The go-selfupdate release record for version 2.0.0. -/
def release200 : Release :=
  { version := ⟨2, 0, 0, [], ""⟩, assetURL := "https://example/afx.tar.gz",
    assetName := "afx_linux_x86_64.tar.gz" }

/-- The go-selfupdate release record for version 1.0.0. -/
def release100 : Release :=
  { version := ⟨1, 0, 0, [], ""⟩, assetURL := "https://example/afx.tar.gz",
    assetName := "afx_linux_x86_64.tar.gz" }

/-! ## Order properties of the comparator

The theorems below establish that the comparator is a total order on
strictly valid versions (claim C8) and justify the break/filter
equivalence of the notice loop (claim C3).  The crux is that canonical
decimal digit strings are injectively mapped to their values. -/


lemma isDigit_toNat {c : Char} (h : c.isDigit = true) :
    48 ≤ c.toNat ∧ c.toNat ≤ 57 := by
  simp [Char.isDigit] at h
  exact ⟨h.1, h.2⟩

lemma charDigit_val_lt {c : Char} (h : c.isDigit = true) : c.toNat - 48 < 10 := by
  have := isDigit_toNat h
  omega

lemma char_toNat_inj {a b : Char} (h : a.toNat = b.toNat) : a = b := by
  have h2 : a.val.toNat = b.val.toNat := h
  exact Char.eq_of_val_eq (UInt32.eq_of_val_eq (Fin.ext h2))

lemma charDigit_inj {a b : Char} (ha : a.isDigit = true) (hb : b.isDigit = true)
    (h : a.toNat - 48 = b.toNat - 48) : a = b := by
  have h1 := isDigit_toNat ha
  have h2 := isDigit_toNat hb
  exact char_toNat_inj (by omega)

lemma map_digitVal_inj : ∀ {cs ds : List Char},
    (∀ c ∈ cs, c.isDigit = true) → (∀ c ∈ ds, c.isDigit = true) →
    cs.map (fun c => c.toNat - 48) = ds.map (fun c => c.toNat - 48) → cs = ds
  | [], [], _, _, _ => rfl
  | [], _ :: _, _, _, h => by simp at h
  | _ :: _, [], _, _, h => by simp at h
  | c :: cs, d :: ds, hc, hd, h => by
    simp only [List.map_cons, List.cons.injEq] at h
    rw [charDigit_inj (hc c (by simp)) (hd d (by simp)) h.1,
      map_digitVal_inj (fun x hx => hc x (by simp [hx])) (fun x hx => hd x (by simp [hx])) h.2]

lemma charDigit_val_ne_zero {c : Char} (h : c.isDigit = true) (h0 : c ≠ '0') :
    c.toNat - 48 ≠ 0 := by
  have h1 := isDigit_toNat h
  intro hz
  exact h0 (charDigit_inj h (by decide) (by simpa using hz))

lemma natOfDigits_append (cs : List Char) (c : Char) :
    natOfDigits (cs ++ [c]) = 10 * natOfDigits cs + (c.toNat - 48) := by
  unfold natOfDigits
  rw [List.foldl_append]
  simp [Nat.mul_comm]

lemma natOfDigits_eq_ofDigits (cs : List Char) :
    natOfDigits cs = Nat.ofDigits 10 ((cs.map (fun c => c.toNat - 48)).reverse) := by
  induction cs using List.reverseRecOn with
  | nil => simp [natOfDigits, Nat.ofDigits]
  | append_singleton cs c ih =>
    rw [natOfDigits_append, List.map_append, List.reverse_append, ih]
    simp [Nat.ofDigits_cons]
    ring

lemma natOfDigits_ne_zero {c : Char} {cs : List Char}
    (hd : ∀ x ∈ c :: cs, x.isDigit = true) (h0 : c ≠ '0') :
    natOfDigits (c :: cs) ≠ 0 := by
  intro hz
  have hL : ∀ l ∈ (((c :: cs).map (fun c => c.toNat - 48)).reverse), l < 10 := by
    intro l hl
    rw [List.mem_reverse, List.mem_map] at hl
    obtain ⟨x, hx, rfl⟩ := hl
    exact charDigit_val_lt (hd x hx)
  have hne : (((c :: cs).map (fun c => c.toNat - 48)).reverse) ≠ [] := by simp
  have hlast : ∀ (h : (((c :: cs).map (fun c => c.toNat - 48)).reverse) ≠ []),
      (((c :: cs).map (fun c => c.toNat - 48)).reverse).getLast h ≠ 0 := by
    intro h
    rw [List.getLast_reverse]
    simpa using charDigit_val_ne_zero (hd c (by simp)) h0
  have := Nat.digits_ofDigits 10 (by norm_num) _ hL hlast
  rw [← natOfDigits_eq_ofDigits, hz] at this
  simp at this

lemma canonDigits_inj {cs ds : List Char} (hc : CanonDigits cs) (hd : CanonDigits ds)
    (h : natOfDigits cs = natOfDigits ds) : cs = ds := by
  obtain ⟨hc1, hc2, hc3⟩ := hc
  obtain ⟨hd1, hd2, hd3⟩ := hd
  have headAlt : ∀ (l : List Char), l ≠ [] → (∀ c ∈ l, c.isDigit = true) →
      noLeadingZero l = true → l = ['0'] ∨ ∃ c l2, l = c :: l2 ∧ c ≠ '0' := by
    intro l h1 h2 h3
    match l with
    | [c] =>
      by_cases hc0 : c = '0'
      · exact Or.inl (by simp [hc0])
      · exact Or.inr ⟨c, [], rfl, hc0⟩
    | c :: c2 :: l2 =>
      refine Or.inr ⟨c, c2 :: l2, rfl, ?_⟩
      simpa [noLeadingZero] using h3
  rcases headAlt cs hc1 hc2 hc3 with h1 | ⟨c, cs2, rfl, hcne⟩ <;>
    rcases headAlt ds hd1 hd2 hd3 with h2 | ⟨d, ds2, rfl, hdne⟩
  · rw [h1, h2]
  · subst h1
    exact absurd h.symm (natOfDigits_ne_zero hd2 hdne)
  · subst h2
    exact absurd h (natOfDigits_ne_zero hc2 hcne)
  · -- both have a non-zero leading digit: use the canonical base-10 digits
    have mkL : ∀ (c : Char) (l : List Char), c ≠ '0' → (∀ x ∈ c :: l, x.isDigit = true) →
        Nat.digits 10 (natOfDigits (c :: l)) = ((c :: l).map (fun c => c.toNat - 48)).reverse := by
      intro c l h0 hall
      rw [natOfDigits_eq_ofDigits]
      refine Nat.digits_ofDigits 10 (by norm_num) _ ?_ ?_
      · intro x hx
        rw [List.mem_reverse, List.mem_map] at hx
        obtain ⟨y, hy, rfl⟩ := hx
        exact charDigit_val_lt (hall y hy)
      · intro hne
        rw [List.getLast_reverse]
        simpa using charDigit_val_ne_zero (hall c (by simp)) h0
    have e1 := mkL c cs2 hcne hc2
    have e2 := mkL d ds2 hdne hd2
    rw [h, e2] at e1
    have e3 : (c :: cs2).map (fun c => c.toNat - 48) = (d :: ds2).map (fun c => c.toNat - 48) :=
      List.reverse_injective e1.symm
    exact map_digitVal_inj hc2 hd2 e3

lemma string_data_inj {s t : String} (h : s.data = t.data) : s = t := by
  cases s; cases t; simp_all

lemma parseUint64_some {s : String} {n : Nat} (h : parseUint64 s = some n) :
    s.data ≠ [] ∧ s.data.all Char.isDigit = true ∧ natOfDigits s.data = n := by
  unfold parseUint64 at h
  split at h
  · rename_i hc
    simp only [Bool.and_eq_true, Bool.not_eq_true'] at hc
    split at h
    · refine ⟨?_, hc.2, by simpa using h⟩
      intro hnil
      have : s = "" := string_data_inj (by simpa using hnil)
      rw [this] at hc
      simp [String.isEmpty] at hc
    · exact absurd h (by simp)
  · exact absurd h (by simp)

lemma validPart_ne_empty {p : String} (h : validPart p = true) : p ≠ "" := by
  unfold validPart at h
  simp only [Bool.and_eq_true, Bool.not_eq_true'] at h
  intro he
  rw [he] at h
  simp [String.isEmpty] at h

lemma validPart_canon {s : String} {n : Nat} (hv : validPart s = true)
    (h : parseUint64 s = some n) : CanonDigits s.data := by
  obtain ⟨h1, h2, _⟩ := parseUint64_some h
  refine ⟨h1, by simpa [List.all_eq_true] using h2, ?_⟩
  unfold validPart at hv
  simp only [Bool.and_eq_true, Bool.not_eq_true'] at hv
  have := hv.2
  rw [if_pos h2] at this
  exact this

lemma parseUint64_inj {s o : String} {n : Nat} (hvs : validPart s = true)
    (hvo : validPart o = true) (hs : parseUint64 s = some n)
    (ho : parseUint64 o = some n) : s = o := by
  obtain ⟨_, _, es⟩ := parseUint64_some hs
  obtain ⟨_, _, eo⟩ := parseUint64_some ho
  exact string_data_inj
    (canonDigits_inj (validPart_canon hvs hs) (validPart_canon hvo ho) (by rw [es, eo]))
lemma charListLt_cons {x y : Char} {xs ys : List Char} :
    charListLt (x :: xs) (y :: ys) = true ↔
      (x.toNat < y.toNat ∨ (x.toNat = y.toNat ∧ charListLt xs ys = true)) := by
  rw [show charListLt (x :: xs) (y :: ys) =
    (if x.toNat < y.toNat then true
      else if y.toNat < x.toNat then false else charListLt xs ys) from rfl]
  split_ifs with h1 h2
  · simp [h1]
  · constructor
    · intro hc
      exact absurd hc (by simp)
    · rintro (hc | ⟨hc, -⟩) <;> omega
  · have hx : x.toNat = y.toNat := by omega
    constructor
    · intro hc
      exact Or.inr ⟨hx, hc⟩
    · rintro (hc | ⟨-, hc⟩)
      · omega
      · exact hc

lemma charListLt_irrefl : ∀ l : List Char, charListLt l l = false
  | [] => rfl
  | c :: cs => by
    rw [Bool.eq_false_iff]
    intro h
    rcases charListLt_cons.mp h with h2 | ⟨-, h2⟩
    · omega
    · rw [charListLt_irrefl cs] at h2
      exact absurd h2 (by simp)

lemma charListLt_trans : ∀ {a b c : List Char}, charListLt a b = true →
    charListLt b c = true → charListLt a c = true
  | [], [], _, h1, _ => by simp [charListLt] at h1
  | [], _ :: _, [], _, h2 => by simp [charListLt] at h2
  | [], _ :: _, _ :: _, _, _ => rfl
  | _ :: _, [], _, h1, _ => by simp [charListLt] at h1
  | _ :: _, _ :: _, [], _, h2 => by simp [charListLt] at h2
  | x :: xs, y :: ys, z :: zs, h1, h2 => by
    rcases charListLt_cons.mp h1 with hc1 | ⟨he1, hr1⟩ <;>
      rcases charListLt_cons.mp h2 with hc2 | ⟨he2, hr2⟩
    · exact charListLt_cons.mpr (Or.inl (by omega))
    · exact charListLt_cons.mpr (Or.inl (by omega))
    · exact charListLt_cons.mpr (Or.inl (by omega))
    · exact charListLt_cons.mpr (Or.inr ⟨by omega, charListLt_trans hr1 hr2⟩)

lemma charListLt_total : ∀ {a b : List Char}, a ≠ b →
    charListLt a b = true ∨ charListLt b a = true
  | [], [], h => absurd rfl h
  | [], _ :: _, _ => Or.inl rfl
  | _ :: _, [], _ => Or.inr rfl
  | x :: xs, y :: ys, h => by
    by_cases hxy : x.toNat < y.toNat
    · exact Or.inl (charListLt_cons.mpr (Or.inl hxy))
    · by_cases hyx : y.toNat < x.toNat
      · exact Or.inr (charListLt_cons.mpr (Or.inl hyx))
      · have hx : x = y := char_toNat_inj (by omega)
        subst hx
        have hne : xs ≠ ys := fun he => h (by rw [he])
        rcases charListLt_total hne with h2 | h2
        · exact Or.inl (charListLt_cons.mpr (Or.inr ⟨rfl, h2⟩))
        · exact Or.inr (charListLt_cons.mpr (Or.inr ⟨rfl, h2⟩))

lemma charListLt_asymm {a b : List Char} (h : charListLt a b = true) :
    charListLt b a = false := by
  by_contra hc
  rw [Bool.not_eq_false] at hc
  have := charListLt_trans h hc
  rw [charListLt_irrefl] at this
  exact absurd this (by simp)


lemma keyLt_irrefl (s : String) : ¬ keyLt s s := by
  unfold keyLt
  rcases h : parseUint64 s with _ | a <;> simp [charListLt_irrefl]

lemma keyLt_trans {s o u : String} (h1 : keyLt s o) (h2 : keyLt o u) : keyLt s u := by
  unfold keyLt at *
  rcases hs : parseUint64 s with _ | a <;> rcases ho : parseUint64 o with _ | b <;>
    rcases hu : parseUint64 u with _ | c <;> rw [hs, ho] at h1 <;> rw [ho, hu] at h2 <;>
    simp at h1 h2 ⊢
  · exact charListLt_trans h1 h2
  · omega

lemma keyLt_asymm {s o : String} (h : keyLt s o) : ¬ keyLt o s := by
  intro h2
  exact keyLt_irrefl s (keyLt_trans h h2)

lemma keyLt_total {s o : String} (hvs : validPart s = true) (hvo : validPart o = true)
    (h : s ≠ o) : keyLt s o ∨ keyLt o s := by
  unfold keyLt
  have hdata : s.data ≠ o.data := fun he => h (string_data_inj he)
  rcases hs : parseUint64 s with _ | a <;> rcases ho : parseUint64 o with _ | b <;> simp
  · exact charListLt_total hdata
  · have : a ≠ b := by
      intro he
      exact h (parseUint64_inj hvs hvo hs (he ▸ ho))
    omega

lemma cpp_self (s : String) : comparePrePart s s = 0 := by
  unfold comparePrePart
  simp

lemma cpp_ne_cases {s o : String} (h : s ≠ o) :
    comparePrePart s o = -1 ∨ comparePrePart s o = 1 := by
  unfold comparePrePart
  rw [if_neg h]
  by_cases he : s = ""
  · rw [if_pos he]
    split_ifs <;> simp
  · rw [if_neg he]
    by_cases ho : o = ""
    · rw [if_pos ho]
      split_ifs <;> simp
    · rw [if_neg ho]
      rcases parseUint64 s with _ | a
      · rcases parseUint64 o with _ | b
        · change (if charListLt o.data s.data then (1 : Int) else -1) = -1 ∨
            (if charListLt o.data s.data then (1 : Int) else -1) = 1
          split_ifs <;> simp
        · change (1 : Int) = -1 ∨ (1 : Int) = 1
          norm_num
      · rcases parseUint64 o with _ | b
        · change (-1 : Int) = -1 ∨ (-1 : Int) = 1
          norm_num
        · change (if b < a then (1 : Int) else -1) = -1 ∨
            (if b < a then (1 : Int) else -1) = 1
          split_ifs <;> simp

lemma cpp_cases (s o : String) :
    comparePrePart s o = -1 ∨ comparePrePart s o = 0 ∨ comparePrePart s o = 1 := by
  by_cases h : s = o
  · rw [h, cpp_self]
    simp
  · rcases cpp_ne_cases h with h2 | h2 <;> simp [h2]

lemma cpp_empty_left {o : String} (h : o ≠ "") : comparePrePart "" o = -1 := by
  unfold comparePrePart
  rw [if_neg (Ne.symm h), if_pos rfl, if_pos h]

lemma cpp_empty_right {s : String} (h : s ≠ "") : comparePrePart s "" = 1 := by
  unfold comparePrePart
  rw [if_neg h, if_neg h, if_pos rfl, if_pos h]

lemma cpp_zero_iff {s o : String} (hvs : validPart s = true) (hvo : validPart o = true) :
    comparePrePart s o = 0 ↔ s = o := by
  constructor
  · intro h
    by_contra hne
    rcases cpp_ne_cases hne with h2 | h2 <;> rw [h2] at h <;> simp at h
  · intro h
    rw [h]
    exact cpp_self o

lemma cpp_neg_iff {s o : String} (hvs : validPart s = true) (hvo : validPart o = true) :
    comparePrePart s o = -1 ↔ keyLt s o := by
  by_cases hne : s = o
  · subst hne
    rw [cpp_self]
    simp [keyLt_irrefl]
  · unfold comparePrePart keyLt
    rw [if_neg hne, if_neg (validPart_ne_empty hvs), if_neg (validPart_ne_empty hvo)]
    have hdata : s.data ≠ o.data := fun he => hne (string_data_inj he)
    rcases hs : parseUint64 s with _ | a
    · rcases ho : parseUint64 o with _ | b
      · change (if charListLt o.data s.data then (1 : Int) else -1) = -1 ↔
          charListLt s.data o.data = true
        by_cases hlt : charListLt o.data s.data = true
        · rw [if_pos hlt]
          constructor
          · intro hc
            exact absurd hc (by norm_num)
          · intro hc
            rw [charListLt_asymm hc] at hlt
            exact absurd hlt (by simp)
        · rw [if_neg hlt]
          simp only [Bool.not_eq_true] at hlt
          constructor
          · intro _
            rcases charListLt_total hdata with h2 | h2
            · exact h2
            · rw [h2] at hlt
              exact absurd hlt (by simp)
          · intro _
            rfl
      · change (1 : Int) = -1 ↔ False
        constructor
        · intro hc
          exact absurd hc (by norm_num)
        · intro hc
          exact hc.elim
    · rcases ho : parseUint64 o with _ | b
      · change (-1 : Int) = -1 ↔ True
        simp
      · change (if b < a then (1 : Int) else -1) = -1 ↔ a < b
        have hab : a ≠ b := by
          intro he
          exact hne (parseUint64_inj hvs hvo hs (he ▸ ho))
        constructor
        · intro hc
          by_contra hnb
          rw [if_pos (by omega)] at hc
          norm_num at hc
        · intro hc
          rw [if_neg (by omega)]

lemma cpp_one_iff {s o : String} (hvs : validPart s = true) (hvo : validPart o = true) :
    comparePrePart s o = 1 ↔ keyLt o s := by
  by_cases hne : s = o
  · subst hne
    rw [cpp_self]
    simp [keyLt_irrefl]
  · rcases cpp_ne_cases hne with h | h
    · rw [h]
      have := (cpp_neg_iff hvs hvo).mp h
      simp only [show (-1 : Int) = 1 ↔ False by norm_num, false_iff]
      exact keyLt_asymm this
    · rw [h]
      simp only [true_iff]
      rcases keyLt_total hvs hvo hne with h2 | h2
      · exact absurd ((cpp_neg_iff hvs hvo).mpr h2) (by rw [h]; norm_num)
      · exact h2

lemma cpp_skew {s o : String} (hvs : validPart s = true) (hvo : validPart o = true) :
    comparePrePart s o = -comparePrePart o s := by
  by_cases hne : s = o
  · subst hne
    rw [cpp_self]
    norm_num
  · rcases keyLt_total hvs hvo hne with h | h
    · rw [(cpp_neg_iff hvs hvo).mpr h, (cpp_one_iff hvo hvs).mpr h]
    · rw [(cpp_one_iff hvs hvo).mpr h, (cpp_neg_iff hvo hvs).mpr h]
      norm_num

lemma cpp_trans_neg {s o u : String} (hvs : validPart s = true)
    (hvo : validPart o = true) (hvu : validPart u = true)
    (h1 : comparePrePart s o = -1) (h2 : comparePrePart o u = -1) :
    comparePrePart s u = -1 :=
  (cpp_neg_iff hvs hvu).mpr
    (keyLt_trans ((cpp_neg_iff hvs hvo).mp h1) ((cpp_neg_iff hvo hvu).mp h2))

/-! ### The identifier-list comparison as an order -/

lemma cppl_nil_cons (o : String) (os : List String) :
    comparePreParts [] (o :: os) =
      (if comparePrePart "" o ≠ 0 then comparePrePart "" o else comparePreParts [] os) := by
  rw [comparePreParts]

lemma cppl_cons_nil (s : String) (ss : List String) :
    comparePreParts (s :: ss) [] =
      (if comparePrePart s "" ≠ 0 then comparePrePart s "" else comparePreParts ss []) := by
  rw [comparePreParts]

lemma cppl_cons (s o : String) (ss os : List String) :
    comparePreParts (s :: ss) (o :: os) =
      (if comparePrePart s o ≠ 0 then comparePrePart s o else comparePreParts ss os) := by
  rw [comparePreParts]

lemma cppl_nil_cons_valid {o : String} (ho : validPart o = true) (os : List String) :
    comparePreParts [] (o :: os) = -1 := by
  rw [cppl_nil_cons, cpp_empty_left (validPart_ne_empty ho)]
  norm_num

lemma cppl_cons_nil_valid {s : String} (hs : validPart s = true) (ss : List String) :
    comparePreParts (s :: ss) [] = 1 := by
  rw [cppl_cons_nil, cpp_empty_right (validPart_ne_empty hs)]
  norm_num

lemma cppl_self : ∀ l : List String, comparePreParts l l = 0
  | [] => by rw [comparePreParts]
  | s :: ss => by
    rw [cppl_cons, cpp_self]
    simp [cppl_self ss]

lemma cppl_zero_iff : ∀ {a b : List String},
    (∀ p ∈ a, validPart p = true) → (∀ p ∈ b, validPart p = true) →
    (comparePreParts a b = 0 ↔ a = b)
  | [], [], _, _ => by
    rw [comparePreParts]
    simp
  | [], o :: os, _, hb => by
    rw [cppl_nil_cons_valid (hb o (by simp)) os]
    constructor
    · intro hc
      exact absurd hc (by norm_num)
    · intro hc
      simp at hc
  | s :: ss, [], ha, _ => by
    rw [cppl_cons_nil_valid (ha s (by simp)) ss]
    constructor
    · intro hc
      exact absurd hc (by norm_num)
    · intro hc
      simp at hc
  | s :: ss, o :: os, ha, hb => by
    rw [cppl_cons]
    by_cases h : comparePrePart s o = 0
    · rw [if_neg (by simpa using h)]
      have hso : s = o := (cpp_zero_iff (ha s (by simp)) (hb o (by simp))).mp h
      rw [cppl_zero_iff (fun p hp => ha p (by simp [hp])) (fun p hp => hb p (by simp [hp]))]
      subst hso
      simp
    · rw [if_pos (by simpa using h)]
      constructor
      · intro hc
        exact absurd hc h
      · intro hc
        simp only [List.cons.injEq] at hc
        exact absurd ((cpp_zero_iff (ha s (by simp)) (hb o (by simp))).mpr hc.1) h

lemma cppl_skew : ∀ {a b : List String},
    (∀ p ∈ a, validPart p = true) → (∀ p ∈ b, validPart p = true) →
    comparePreParts a b = -comparePreParts b a
  | [], [], _, _ => by
    rw [comparePreParts]
    rfl
  | [], o :: os, _, hb => by
    rw [cppl_nil_cons_valid (hb o (by simp)) os, cppl_cons_nil_valid (hb o (by simp)) os]
  | s :: ss, [], ha, _ => by
    rw [cppl_cons_nil_valid (ha s (by simp)) ss, cppl_nil_cons_valid (ha s (by simp)) ss]
    norm_num
  | s :: ss, o :: os, ha, hb => by
    rw [cppl_cons, cppl_cons]
    have hskew := cpp_skew (ha s (by simp)) (hb o (by simp))
    by_cases h : comparePrePart s o = 0
    · rw [if_neg (by simpa using h), if_neg (by simp [hskew ▸ h]; omega)]
      exact cppl_skew (fun p hp => ha p (by simp [hp])) (fun p hp => hb p (by simp [hp]))
    · rw [if_pos (by simpa using h), if_pos (by simp; omega)]
      exact hskew

lemma cppl_trans_neg : ∀ {a b c : List String},
    (∀ p ∈ a, validPart p = true) → (∀ p ∈ b, validPart p = true) →
    (∀ p ∈ c, validPart p = true) →
    comparePreParts a b = -1 → comparePreParts b c = -1 → comparePreParts a c = -1
  | [], [], _, _, _, _, h1, _ => by
    rw [comparePreParts] at h1
    exact absurd h1 (by norm_num)
  | [], o :: os, [], _, hb, _, _, h2 => by
    rw [cppl_cons_nil_valid (hb o (by simp)) os] at h2
    exact absurd h2 (by norm_num)
  | [], _ :: _, z :: zs, _, _, hc, _, _ => cppl_nil_cons_valid (hc z (by simp)) zs
  | s :: ss, [], _, ha, _, _, h1, _ => by
    rw [cppl_cons_nil_valid (ha s (by simp)) ss] at h1
    exact absurd h1 (by norm_num)
  | _ :: _, o :: os, [], _, hb, _, _, h2 => by
    rw [cppl_cons_nil_valid (hb o (by simp)) os] at h2
    exact absurd h2 (by norm_num)
  | s :: ss, o :: os, z :: zs, ha, hb, hc, h1, h2 => by
    have hvs := ha s (by simp)
    have hvo := hb o (by simp)
    have hvz := hc z (by simp)
    have has : ∀ p ∈ ss, validPart p = true := fun p hp => ha p (by simp [hp])
    have hbs : ∀ p ∈ os, validPart p = true := fun p hp => hb p (by simp [hp])
    have hcs : ∀ p ∈ zs, validPart p = true := fun p hp => hc p (by simp [hp])
    rw [cppl_cons] at h1 h2 ⊢
    by_cases e1 : comparePrePart s o = 0
    · rw [if_neg (by simpa using e1)] at h1
      have hso : s = o := (cpp_zero_iff hvs hvo).mp e1
      subst hso
      by_cases e2 : comparePrePart s z = 0
      · rw [if_neg (by simpa using e2)] at h2 ⊢
        exact cppl_trans_neg has hbs hcs h1 h2
      · rw [if_pos (by simpa using e2)] at h2 ⊢
        exact h2
    · rw [if_pos (by simpa using e1)] at h1
      by_cases e2 : comparePrePart o z = 0
      · have hoz : o = z := (cpp_zero_iff hvo hvz).mp e2
        subst hoz
        rw [if_pos (by simpa using e1)]
        exact h1
      · rw [if_pos (by simpa using e2)] at h2
        have := cpp_trans_neg hvs hvo hvz h1 h2
        rw [if_pos (by rw [this]; norm_num)]
        exact this

/-! ### The pre-release block and the full comparison as an order -/


lemma cp_self (l : List String) : comparePre l l = 0 := by
  cases l with
  | nil => rfl
  | cons s ss =>
    show comparePreParts (s :: ss) (s :: ss) = 0
    exact cppl_self _

lemma cp_zero_iff {a b : List String} (ha : ValidParts a) (hb : ValidParts b) :
    comparePre a b = 0 ↔ a = b := by
  cases a with
  | nil =>
    cases b with
    | nil => simp [comparePre]
    | cons o os =>
      show (1 : Int) = 0 ↔ _
      constructor
      · intro hc
        exact absurd hc (by norm_num)
      · intro hc
        simp at hc
  | cons s ss =>
    cases b with
    | nil =>
      show (-1 : Int) = 0 ↔ _
      constructor
      · intro hc
        exact absurd hc (by norm_num)
      · intro hc
        simp at hc
    | cons o os =>
      show comparePreParts (s :: ss) (o :: os) = 0 ↔ _
      exact cppl_zero_iff ha hb

lemma cp_skew {a b : List String} (ha : ValidParts a) (hb : ValidParts b) :
    comparePre a b = -comparePre b a := by
  cases a with
  | nil =>
    cases b with
    | nil => rfl
    | cons o os => rfl
  | cons s ss =>
    cases b with
    | nil => rfl
    | cons o os =>
      show comparePreParts (s :: ss) (o :: os) = -comparePreParts (o :: os) (s :: ss)
      exact cppl_skew ha hb

lemma cp_trans_neg {a b c : List String} (ha : ValidParts a) (hb : ValidParts b)
    (hc : ValidParts c) (h1 : comparePre a b = -1) (h2 : comparePre b c = -1) :
    comparePre a c = -1 := by
  cases a with
  | nil =>
    cases b with
    | nil =>
      exact absurd h1 (by rw [show comparePre ([] : List String) [] = (0 : Int) from rfl]; norm_num)
    | cons o os =>
      exact absurd h1 (by rw [show comparePre [] (o :: os) = (1 : Int) from rfl]; norm_num)
  | cons s ss =>
    cases b with
    | nil =>
      cases c with
      | nil =>
        exact absurd h2 (by rw [show comparePre ([] : List String) [] = (0 : Int) from rfl]; norm_num)
      | cons z zs =>
        exact absurd h2 (by rw [show comparePre [] (z :: zs) = (1 : Int) from rfl]; norm_num)
    | cons o os =>
      cases c with
      | nil => rfl
      | cons z zs =>
        show comparePreParts (s :: ss) (z :: zs) = -1
        exact cppl_trans_neg ha hb hc h1 h2

lemma cppl_vals : ∀ (a b : List String),
    comparePreParts a b = -1 ∨ comparePreParts a b = 0 ∨ comparePreParts a b = 1
  | [], [] => by
    rw [comparePreParts]
    norm_num
  | [], o :: os => by
    rw [cppl_nil_cons]
    rcases cpp_cases "" o with h | h | h <;> simp [h]
    exact cppl_vals [] os
  | s :: ss, [] => by
    rw [cppl_cons_nil]
    rcases cpp_cases s "" with h | h | h <;> simp [h]
    exact cppl_vals ss []
  | s :: ss, o :: os => by
    rw [cppl_cons]
    rcases cpp_cases s o with h | h | h <;> simp [h]
    exact cppl_vals ss os

lemma cp_vals (a b : List String) :
    comparePre a b = -1 ∨ comparePre a b = 0 ∨ comparePre a b = 1 := by
  cases a with
  | nil => cases b with
    | nil => norm_num [show comparePre ([] : List String) [] = 0 from rfl]
    | cons o os => norm_num [show comparePre [] (o :: os) = 1 from rfl]
  | cons s ss => cases b with
    | nil => norm_num [show comparePre (s :: ss) [] = -1 from rfl]
    | cons o os => exact cppl_vals (s :: ss) (o :: os)

lemma compareSegment_self (a : Nat) : compareSegment a a = 0 := by
  unfold compareSegment
  simp

lemma compareSegment_vals (a b : Nat) :
    compareSegment a b = -1 ∨ compareSegment a b = 0 ∨ compareSegment a b = 1 := by
  unfold compareSegment
  split_ifs <;> norm_num

lemma compareSegment_eq_zero_iff {a b : Nat} : compareSegment a b = 0 ↔ a = b := by
  unfold compareSegment
  split_ifs <;> norm_num <;> omega

lemma compareSegment_eq_neg_iff {a b : Nat} : compareSegment a b = -1 ↔ a < b := by
  unfold compareSegment
  split_ifs <;> norm_num <;> omega

lemma compareSegment_eq_one_iff {a b : Nat} : compareSegment a b = 1 ↔ b < a := by
  unfold compareSegment
  split_ifs <;> norm_num <;> omega

lemma compareSegment_skew (a b : Nat) : compareSegment a b = -compareSegment b a := by
  unfold compareSegment
  split_ifs <;> omega

lemma intLex_of_neg {d r : Int} (h : d = -1) : intLex d r = -1 := by
  rw [intLex, h]
  norm_num

lemma intLex_of_one {d r : Int} (h : d = 1) : intLex d r = 1 := by
  rw [intLex, h]
  norm_num

lemma intLex_of_zero {d r : Int} (h : d = 0) : intLex d r = r := by
  rw [intLex, h]
  norm_num

lemma intLex_zero_iff {d r : Int} : intLex d r = 0 ↔ (d = 0 ∧ r = 0) := by
  unfold intLex
  by_cases h : d = 0 <;> simp [h]

lemma intLex_skew {d e r t : Int} (hd : d = -e) (hr : r = -t) :
    intLex d r = -intLex e t := by
  subst hd hr
  unfold intLex
  by_cases h : e = 0 <;> simp [h]

/-- Whether a version's pre-release identifier list is strictly valid,
as a hypothesis-friendly predicate. -/
lemma validPre_parts {v : SemVer} (h : v.ValidPre = true) : ValidParts v.pre := by
  intro p hp
  exact List.all_eq_true.mp h p hp


lemma cmp_self (v : SemVer) : SemVer.compare v v = 0 := by
  unfold SemVer.compare
  rw [compareSegment_self, compareSegment_self, compareSegment_self, cp_self,
    intLex_of_zero rfl, intLex_of_zero rfl, intLex_of_zero rfl]

lemma cmp_zero_iff {a b : SemVer} (ha : a.ValidPre = true) (hb : b.ValidPre = true) :
    SemVer.compare a b = 0 ↔
      (a.major = b.major ∧ a.minor = b.minor ∧ a.patch = b.patch ∧ a.pre = b.pre) := by
  unfold SemVer.compare
  rw [intLex_zero_iff, intLex_zero_iff, intLex_zero_iff,
    compareSegment_eq_zero_iff, compareSegment_eq_zero_iff, compareSegment_eq_zero_iff,
    cp_zero_iff (validPre_parts ha) (validPre_parts hb)]

lemma cmp_skew {a b : SemVer} (ha : a.ValidPre = true) (hb : b.ValidPre = true) :
    SemVer.compare a b = -SemVer.compare b a := by
  unfold SemVer.compare
  exact intLex_skew (compareSegment_skew _ _)
    (intLex_skew (compareSegment_skew _ _)
      (intLex_skew (compareSegment_skew _ _)
        (cp_skew (validPre_parts ha) (validPre_parts hb))))

lemma cmp_vals (a b : SemVer) :
    SemVer.compare a b = -1 ∨ SemVer.compare a b = 0 ∨ SemVer.compare a b = 1 := by
  unfold SemVer.compare intLex
  split_ifs <;> first
    | exact compareSegment_vals _ _
    | exact cp_vals _ _

lemma cmp_neg_iff {a b : SemVer} : SemVer.compare a b = -1 ↔ vLt a b := by
  unfold SemVer.compare vLt
  rcases compareSegment_vals a.major b.major with h1 | h1 | h1
  · rw [intLex_of_neg h1]
    simp only [compareSegment_eq_neg_iff] at h1
    constructor
    · intro _
      exact Or.inl h1
    · intro _
      rfl
  · rw [intLex_of_zero h1]
    simp only [compareSegment_eq_zero_iff] at h1
    rcases compareSegment_vals a.minor b.minor with h2 | h2 | h2
    · rw [intLex_of_neg h2]
      simp only [compareSegment_eq_neg_iff] at h2
      constructor
      · intro _
        exact Or.inr ⟨h1, Or.inl h2⟩
      · intro _
        rfl
    · rw [intLex_of_zero h2]
      simp only [compareSegment_eq_zero_iff] at h2
      rcases compareSegment_vals a.patch b.patch with h3 | h3 | h3
      · rw [intLex_of_neg h3]
        simp only [compareSegment_eq_neg_iff] at h3
        constructor
        · intro _
          exact Or.inr ⟨h1, Or.inr ⟨h2, Or.inl h3⟩⟩
        · intro _
          rfl
      · rw [intLex_of_zero h3]
        simp only [compareSegment_eq_zero_iff] at h3
        constructor
        · intro hp
          exact Or.inr ⟨h1, Or.inr ⟨h2, Or.inr ⟨h3, hp⟩⟩⟩
        · intro hp
          rcases hp with hc | ⟨-, hc | ⟨-, hc | ⟨-, hc⟩⟩⟩
          · omega
          · omega
          · omega
          · exact hc
      · rw [intLex_of_one h3]
        simp only [compareSegment_eq_one_iff] at h3
        constructor
        · intro hc
          exact absurd hc (by norm_num)
        · intro hp
          rcases hp with hc | ⟨-, hc | ⟨-, hc | ⟨hc, -⟩⟩⟩ <;> omega
    · rw [intLex_of_one h2]
      simp only [compareSegment_eq_one_iff] at h2
      constructor
      · intro hc
        exact absurd hc (by norm_num)
      · intro hp
        rcases hp with hc | ⟨-, hc | ⟨hc, -⟩⟩ <;> omega
  · rw [intLex_of_one h1]
    simp only [compareSegment_eq_one_iff] at h1
    constructor
    · intro hc
      exact absurd hc (by norm_num)
    · intro hp
      rcases hp with hc | ⟨hc, -⟩ <;> omega

lemma vLt_trans {a b c : SemVer} (ha : a.ValidPre = true) (hb : b.ValidPre = true)
    (hc : c.ValidPre = true) (h1 : vLt a b) (h2 : vLt b c) : vLt a c := by
  unfold vLt at *
  rcases h1 with h1 | ⟨e1, h1⟩
  · rcases h2 with h2 | ⟨e2, h2⟩
    · exact Or.inl (by omega)
    · exact Or.inl (by omega)
  · rcases h2 with h2 | ⟨e2, h2⟩
    · exact Or.inl (by omega)
    · refine Or.inr ⟨by omega, ?_⟩
      rcases h1 with h1 | ⟨f1, h1⟩
      · rcases h2 with h2 | ⟨f2, h2⟩
        · exact Or.inl (by omega)
        · exact Or.inl (by omega)
      · rcases h2 with h2 | ⟨f2, h2⟩
        · exact Or.inl (by omega)
        · refine Or.inr ⟨by omega, ?_⟩
          rcases h1 with h1 | ⟨g1, h1⟩
          · rcases h2 with h2 | ⟨g2, h2⟩
            · exact Or.inl (by omega)
            · exact Or.inl (by omega)
          · rcases h2 with h2 | ⟨g2, h2⟩
            · exact Or.inl (by omega)
            · refine Or.inr ⟨by omega, ?_⟩
              exact cp_trans_neg (validPre_parts ha) (validPre_parts hb)
                (validPre_parts hc) h1 h2

lemma cmp_trans_neg {a b c : SemVer} (ha : a.ValidPre = true) (hb : b.ValidPre = true)
    (hc : c.ValidPre = true) (h1 : SemVer.compare a b = -1)
    (h2 : SemVer.compare b c = -1) : SemVer.compare a c = -1 :=
  cmp_neg_iff.mpr (vLt_trans ha hb hc (cmp_neg_iff.mp h1) (cmp_neg_iff.mp h2))

/-- Two versions comparing as equal have identical precedence quadruples,
so they compare identically against everything (build metadata plays no
role in the comparison). -/
lemma cmp_congr_right {b c : SemVer} (h : b.major = c.major ∧ b.minor = c.minor ∧
    b.patch = c.patch ∧ b.pre = c.pre) (a : SemVer) :
    SemVer.compare a b = SemVer.compare a c := by
  unfold SemVer.compare
  rw [h.1, h.2.1, h.2.2.1, h.2.2.2]

lemma cmp_congr_left {a b : SemVer} (h : a.major = b.major ∧ a.minor = b.minor ∧
    a.patch = b.patch ∧ a.pre = b.pre) (c : SemVer) :
    SemVer.compare a c = SemVer.compare b c := by
  unfold SemVer.compare
  rw [h.1, h.2.1, h.2.2.1, h.2.2.2]

lemma cmp_lt_of_lt_of_le {a b c : SemVer} (ha : a.ValidPre = true)
    (hb : b.ValidPre = true) (hc : c.ValidPre = true)
    (h1 : SemVer.compare a b = -1) (h2 : SemVer.compare b c ≤ 0) :
    SemVer.compare a c = -1 := by
  rcases cmp_vals b c with h | h | h
  · exact cmp_trans_neg ha hb hc h1 h
  · rw [← cmp_congr_right ((cmp_zero_iff hb hc).mp h) a]
    exact h1
  · rw [h] at h2
    norm_num at h2

lemma cmp_le_trans {a b c : SemVer} (ha : a.ValidPre = true) (hb : b.ValidPre = true)
    (hc : c.ValidPre = true) (h1 : SemVer.compare a b ≤ 0)
    (h2 : SemVer.compare b c ≤ 0) : SemVer.compare a c ≤ 0 := by
  rcases cmp_vals a b with h | h | h
  · rw [cmp_lt_of_lt_of_le ha hb hc h h2]
    norm_num
  · rw [cmp_congr_left ((cmp_zero_iff ha hb).mp h) c]
    exact h2
  · rw [h] at h1
    norm_num at h1

/-! ## Claim C8: the comparison is a total order -/

/-- C8: For all strictly valid semantic versions, the comparison used by
the command (Masterminds `Compare`, and the predicates built on it) is a
total order consistent with semantic-versioning precedence:
`compare(a,a) = equal`, comparing as equal forces identical precedence
components (antisymmetry), the comparison is skew-symmetric and
transitive, and `LessThan` / `GreaterThan` / go-selfupdate's
`LessOrEqual` agree with `compare`. -/
theorem claim8_total_order (a b c : SemVer) (r : Release) (s : String) (v : SemVer)
    (ha : a.ValidPre = true) (hb : b.ValidPre = true) (hc : c.ValidPre = true)
    (hs : NewVersion s = some v) :
    SemVer.compare a a = 0 ∧
    (SemVer.compare a b = 0 →
      (a.major = b.major ∧ a.minor = b.minor ∧ a.patch = b.patch ∧ a.pre = b.pre)) ∧
    SemVer.compare a b = -SemVer.compare b a ∧
    (SemVer.compare a b ≤ 0 → SemVer.compare b c ≤ 0 → SemVer.compare a c ≤ 0) ∧
    (SemVer.lessThan a b = true ↔ SemVer.compare a b < 0) ∧
    (SemVer.greaterThan a b = true ↔ SemVer.compare a b > 0) ∧
    (releaseLessOrEqual r s = true ↔ SemVer.compare r.version v ≤ 0) := by
  refine ⟨cmp_self a, fun h => (cmp_zero_iff ha hb).mp h, cmp_skew ha hb,
    fun h1 h2 => cmp_le_trans ha hb hc h1 h2, ?_, ?_, ?_⟩
  · simp [SemVer.lessThan]
  · simp [SemVer.greaterThan]
  · rw [releaseLessOrEqual, hs]
    simp

/-- Witness for C8 at concrete versions 1.0.0, 1.2.3-alpha.1, 2.0.0. -/
theorem claim8_witness :
    (SemVer.ValidPre ⟨1, 0, 0, [], ""⟩ = true) ∧
    (SemVer.ValidPre ⟨1, 2, 3, ["alpha", "1"], ""⟩ = true) ∧
    (SemVer.ValidPre ⟨2, 0, 0, [], ""⟩ = true) ∧
    (NewVersion "1.2.3" = some ⟨1, 2, 3, [], ""⟩) ∧
    (SemVer.compare ⟨1, 0, 0, [], ""⟩ ⟨1, 0, 0, [], ""⟩ = 0 ∧
      (SemVer.compare ⟨1, 0, 0, [], ""⟩ ⟨1, 2, 3, ["alpha", "1"], ""⟩ = 0 →
        ((1 : Nat) = 1 ∧ (0 : Nat) = 2 ∧ (0 : Nat) = 3 ∧ ([] : List String) = ["alpha", "1"])) ∧
      SemVer.compare ⟨1, 0, 0, [], ""⟩ ⟨1, 2, 3, ["alpha", "1"], ""⟩ =
        -SemVer.compare ⟨1, 2, 3, ["alpha", "1"], ""⟩ ⟨1, 0, 0, [], ""⟩ ∧
      (SemVer.compare ⟨1, 0, 0, [], ""⟩ ⟨1, 2, 3, ["alpha", "1"], ""⟩ ≤ 0 →
        SemVer.compare ⟨1, 2, 3, ["alpha", "1"], ""⟩ ⟨2, 0, 0, [], ""⟩ ≤ 0 →
        SemVer.compare ⟨1, 0, 0, [], ""⟩ ⟨2, 0, 0, [], ""⟩ ≤ 0) ∧
      (SemVer.lessThan ⟨1, 0, 0, [], ""⟩ ⟨1, 2, 3, ["alpha", "1"], ""⟩ = true ↔
        SemVer.compare ⟨1, 0, 0, [], ""⟩ ⟨1, 2, 3, ["alpha", "1"], ""⟩ < 0) ∧
      (SemVer.greaterThan ⟨1, 0, 0, [], ""⟩ ⟨1, 2, 3, ["alpha", "1"], ""⟩ = true ↔
        SemVer.compare ⟨1, 0, 0, [], ""⟩ ⟨1, 2, 3, ["alpha", "1"], ""⟩ > 0) ∧
      (releaseLessOrEqual ⟨⟨1, 2, 3, [], ""⟩, "u", "n"⟩ "1.2.3" = true ↔
        SemVer.compare ⟨1, 2, 3, [], ""⟩ ⟨1, 2, 3, [], ""⟩ ≤ 0)) :=
  ⟨by decide, by decide, by decide, by decide,
    claim8_total_order ⟨1, 0, 0, [], ""⟩ ⟨1, 2, 3, ["alpha", "1"], ""⟩ ⟨2, 0, 0, [], ""⟩
      ⟨⟨1, 2, 3, [], ""⟩, "u", "n"⟩ "1.2.3" ⟨1, 2, 3, [], ""⟩
      (by decide) (by decide) (by decide) (by decide)⟩

/-! ## The sort and the notice loop -/

lemma insertV_perm (x : SemVer) : ∀ l : List SemVer, List.Perm (insertV x l) (x :: l)
  | [] => List.Perm.refl _
  | y :: ys => by
    unfold insertV
    split_ifs with h
    · exact List.Perm.trans (List.Perm.cons y (insertV_perm x ys)) (List.Perm.swap x y ys)
    · exact List.Perm.refl _

lemma sortVersions_perm : ∀ l : List SemVer, List.Perm (sortVersions l) l
  | [] => List.Perm.refl _
  | x :: xs => by
    unfold sortVersions
    exact List.Perm.trans (insertV_perm x (sortVersions xs))
      (List.Perm.cons x (sortVersions_perm xs))

lemma insertV_sorted {x : SemVer} (hvx : x.ValidPre = true) :
    ∀ {l : List SemVer}, (∀ v ∈ l, SemVer.ValidPre v = true) →
    List.Pairwise (fun a b => SemVer.compare a b ≤ 0) l →
    List.Pairwise (fun a b => SemVer.compare a b ≤ 0) (insertV x l)
  | [], _, _ => by
    unfold insertV
    simp
  | y :: ys, hv, hp => by
    have hvy : y.ValidPre = true := hv y (by simp)
    have hvys : ∀ v ∈ ys, SemVer.ValidPre v = true := fun v hvm => hv v (by simp [hvm])
    rw [List.pairwise_cons] at hp
    unfold insertV
    split_ifs with h
    · rw [List.pairwise_cons]
      constructor
      · intro z hz
        have hz2 : z = x ∨ z ∈ ys := by
          have := (insertV_perm x ys).mem_iff.mp hz
          simpa using this
        rcases hz2 with rfl | hz2
        · omega
        · exact hp.1 z hz2
      · exact insertV_sorted hvx hvys hp.2
    · rw [List.pairwise_cons]
      constructor
      · intro z hz
        have hyx : SemVer.compare x y ≤ 0 := by
          have hs := cmp_skew hvy hvx
          omega
        rcases (by simpa using hz : z = y ∨ z ∈ ys) with rfl | hz2
        · exact hyx
        · exact cmp_le_trans hvx hvy (hvys z hz2) hyx (hp.1 z hz2)
      · rw [List.pairwise_cons]
        exact hp

lemma sortVersions_sorted : ∀ {l : List SemVer},
    (∀ v ∈ l, SemVer.ValidPre v = true) →
    List.Pairwise (fun a b => SemVer.compare a b ≤ 0) (sortVersions l)
  | [], _ => by
    unfold sortVersions
    simp
  | x :: xs, hv => by
    unfold sortVersions
    refine insertV_sorted (hv x (by simp)) ?_ (sortVersions_sorted fun v hvm => hv v (by simp [hvm]))
    intro v hvm
    exact hv v (by simp [(sortVersions_perm xs).mem_iff.mp hvm])

lemma noticesLoop_eq {annotTable : List (String × String)} {curStr tgtStr : String}
    {start stop : SemVer} (hcur : NewVersion curStr = some start)
    (htgt : NewVersion tgtStr = some stop) :
    ∀ vs : List SemVer,
    noticesLoop annotTable curStr tgtStr vs =
      some (((vs.takeWhile (fun v => !(SemVer.lessThan stop v))).filter
        (fun v => SemVer.greaterThan v start)).map
          (fun v => "- " ++ mapGet annotTable (render v)))
  | [] => by
    simp [noticesLoop]
  | v :: rest => by
    simp only [noticesLoop, hcur, htgt, noticesLoop_eq hcur htgt rest]
    by_cases h : SemVer.lessThan stop v = true
    · simp [List.takeWhile_cons, h]
    · by_cases hg : SemVer.greaterThan v start = true
      · simp [List.takeWhile_cons, List.filter_cons, h, hg]
      · simp [List.takeWhile_cons, List.filter_cons, h, hg]

lemma takeWhile_eq_filter_sorted {stop : SemVer} (hvstop : stop.ValidPre = true) :
    ∀ {vs : List SemVer}, (∀ v ∈ vs, SemVer.ValidPre v = true) →
    List.Pairwise (fun a b => SemVer.compare a b ≤ 0) vs →
    vs.takeWhile (fun v => !(SemVer.lessThan stop v)) =
      vs.filter (fun v => !(SemVer.lessThan stop v))
  | [], _, _ => rfl
  | v :: rest, hv, hp => by
    rw [List.pairwise_cons] at hp
    by_cases h : SemVer.lessThan stop v = true
    · rw [List.takeWhile_cons, List.filter_cons]
      simp only [h, Bool.not_true, Bool.false_eq_true, ↓reduceIte, if_neg]
      have hall : ∀ u ∈ rest, SemVer.lessThan stop u = true := by
        intro u hu
        have hsv : SemVer.compare stop v = -1 := by
          have := cmp_vals stop v
          simp only [SemVer.lessThan, decide_eq_true_eq] at h
          omega
        have : SemVer.compare stop u = -1 :=
          cmp_lt_of_lt_of_le hvstop (hv v (by simp)) (hv u (by simp [hu])) hsv (hp.1 u hu)
        simp [SemVer.lessThan, this]
      rw [Eq.comm, List.filter_eq_nil_iff]
      intro u hu
      simp [hall u hu]
    · rw [List.takeWhile_cons, List.filter_cons]
      simp only [h, Bool.not_false]
      rw [if_pos (by simp [h]), if_pos (by simp [h])]
      rw [takeWhile_eq_filter_sorted hvstop (fun u hu => hv u (by simp [hu])) hp.2]

lemma parseAll_canon : ∀ {ks : List String},
    (∀ k ∈ ks, ∃ u, NewVersion k = some u ∧ render u = k ∧ u.ValidPre = true) →
    ∃ vs, parseAll ks = some vs ∧ vs.map render = ks ∧
      ∀ v ∈ vs, NewVersion (render v) = some v ∧ v.ValidPre = true
  | [], _ => ⟨[], rfl, rfl, by simp⟩
  | k :: ks, h => by
    obtain ⟨u, hu, hru, hvu⟩ := h k (by simp)
    obtain ⟨vs, hvs, hmap, hprops⟩ := @parseAll_canon ks (fun x hx => h x (by simp [hx]))
    refine ⟨u :: vs, ?_, ?_, ?_⟩
    · simp only [parseAll, hu, hvs]
    · simp [hmap, hru]
    · intro v hv
      rcases (by simpa using hv : v = u ∨ v ∈ vs) with rfl | hv2
      · exact ⟨by rw [hru]; exact hu, hvu⟩
      · exact hprops v hv2

lemma mapGet_mem : ∀ {annotTable : List (String × String)} {k : String},
    k ∈ annotTable.map Prod.fst → (k, mapGet annotTable k) ∈ annotTable
  | [], k, hk => by simp at hk
  | p :: rest, k, hk => by
    rw [List.map_cons, List.mem_cons] at hk
    by_cases h : p.1 = k
    · have hg : mapGet (p :: rest) k = p.2 := by
        unfold mapGet
        rw [List.find?_cons_of_pos _ (by simp [h])]
      rw [hg]
      subst h
      simp
    · have hr : k ∈ rest.map Prod.fst := by
        rcases hk with hc | hc
        · exact absurd hc.symm h
        · exact hc
      have hg : mapGet (p :: rest) k = mapGet rest k := by
        unfold mapGet
        rw [List.find?_cons_of_neg _ (by simp [h])]
      rw [hg]
      exact List.mem_cons_of_mem p (mapGet_mem hr)

lemma mapGet_unique : ∀ {annotTable : List (String × String)} {k : String} {m : String},
    (annotTable.map Prod.fst).Nodup → (k, m) ∈ annotTable → mapGet annotTable k = m
  | [], _, _, _, hm => by simp at hm
  | p :: rest, k, m, hnd, hm => by
    rw [List.map_cons, List.nodup_cons] at hnd
    rw [List.mem_cons] at hm
    rcases hm with he | hm2
    · unfold mapGet
      rw [List.find?_cons_of_pos _ (by rw [← he]; simp)]
      rw [← he]
    · have h : p.1 ≠ k := by
        intro he
        exact hnd.1 (he ▸ List.mem_map_of_mem Prod.fst hm2)
      have hg : mapGet (p :: rest) k = mapGet rest k := by
        unfold mapGet
        rw [List.find?_cons_of_neg _ (by simp [h])]
      rw [hg]
      exact mapGet_unique hnd.2 hm2

/-! ## Claim C3 (amended): the notice computation -/

/-- C3 (amended): for an annotation table whose keys are canonical,
strictly valid version strings, and valid current/target versions, the
computed messages are exactly the annotation entries whose version v
satisfies currentVersion < v and v <= targetVersion, in ascending
version order, each rendered with the "- " bullet of the source. -/
theorem claim3_amended_notices
    (annotTable : List (String × String)) (cur tgt : String) (start stop : SemVer)
    (hnd : (annotTable.map Prod.fst).Nodup)
    (hcanon : ∀ p ∈ annotTable, ∃ u, NewVersion p.1 = some u ∧ render u = p.1 ∧
      u.ValidPre = true)
    (hcur : NewVersion cur = some start) (hvstart : start.ValidPre = true)
    (htgt : NewVersion tgt = some stop) (hvstop : stop.ValidPre = true) :
    ∃ sel : List (String × String),
      computeMessages annotTable cur tgt = some (sel.map (fun p => "- " ++ p.2)) ∧
      (∀ p : String × String, p ∈ sel ↔ (p ∈ annotTable ∧ ∃ v, NewVersion p.1 = some v ∧
        SemVer.compare start v < 0 ∧ SemVer.compare v stop ≤ 0)) ∧
      sel.Nodup ∧
      List.Pairwise (fun p q => ∃ v w, NewVersion p.1 = some v ∧ NewVersion q.1 = some w ∧
        SemVer.compare v w ≤ 0) sel := by
  obtain ⟨vs, hparse, hmap, hprops⟩ :=
    @parseAll_canon (annotTable.map Prod.fst) (by
      intro k hk
      obtain ⟨p, hp, rfl⟩ := List.mem_map.mp hk
      exact hcanon p hp)
  have hvalidvs : ∀ v ∈ vs, SemVer.ValidPre v = true := fun v hv => (hprops v hv).2
  have hperm := sortVersions_perm vs
  have hvalidsvs : ∀ v ∈ sortVersions vs, SemVer.ValidPre v = true :=
    fun v hv => hvalidvs v (hperm.mem_iff.mp hv)
  have hsorted := sortVersions_sorted hvalidvs
  have hcm : computeMessages annotTable cur tgt =
      some ((((sortVersions vs).filter
          (fun v => SemVer.greaterThan v start && !(SemVer.lessThan stop v))).map
        (fun v => "- " ++ mapGet annotTable (render v)))) := by
    simp only [computeMessages, hparse]
    rw [noticesLoop_eq hcur htgt (sortVersions vs),
      takeWhile_eq_filter_sorted hvstop hvalidsvs hsorted, List.filter_filter]
  have hkeyOf : ∀ v ∈ vs, (render v, mapGet annotTable (render v)) ∈ annotTable := by
    intro v hv
    exact mapGet_mem (hmap ▸ List.mem_map_of_mem render hv)
  have hfind : ∀ p ∈ annotTable, ∀ v, NewVersion p.1 = some v →
      v ∈ vs ∧ render v = p.1 := by
    intro p hp v hpv
    have hk : p.1 ∈ vs.map render := by
      rw [hmap]
      exact List.mem_map_of_mem Prod.fst hp
    obtain ⟨w, hw, hrw⟩ := List.mem_map.mp hk
    have := (hprops w hw).1
    rw [hrw, hpv] at this
    obtain rfl := Option.some.inj this
    exact ⟨hw, hrw⟩
  refine ⟨((sortVersions vs).filter
      (fun v => SemVer.greaterThan v start && !(SemVer.lessThan stop v))).map
        (fun v => (render v, mapGet annotTable (render v))), ?_, ?_, ?_, ?_⟩
  · rw [hcm, List.map_map]
    rfl
  · intro p
    constructor
    · intro hp
      obtain ⟨v, hvf, rfl⟩ := List.mem_map.mp hp
      rw [List.mem_filter] at hvf
      obtain ⟨hvsvs, hpred⟩ := hvf
      have hvin : v ∈ vs := hperm.mem_iff.mp hvsvs
      have hvv : SemVer.ValidPre v = true := hvalidvs v hvin
      simp only [Bool.and_eq_true, Bool.not_eq_true] at hpred
      refine ⟨hkeyOf v hvin, v, (hprops v hvin).1, ?_, ?_⟩
      · have hgt : SemVer.compare v start > 0 := by
          have := hpred.1
          simpa [SemVer.greaterThan] using this
        have hs := cmp_skew hvstart hvv
        omega
      · have h2b : (0 : Int) ≤ SemVer.compare stop v := by
          have hb := hpred.2
          simp [SemVer.lessThan] at hb
          omega
        have hs := cmp_skew hvv hvstop
        omega
    · rintro ⟨hpmem, v, hpv, h1, h2⟩
      obtain ⟨hvin, hrv⟩ := hfind p hpmem v hpv
      have hvv : SemVer.ValidPre v = true := hvalidvs v hvin
      have hpred : (SemVer.greaterThan v start && !(SemVer.lessThan stop v)) = true := by
        have hs1 := cmp_skew hvstart hvv
        have hs2 := cmp_skew hvv hvstop
        simp only [Bool.and_eq_true, Bool.not_eq_true]
        constructor
        · simp only [SemVer.greaterThan, decide_eq_true_eq]
          omega
        · simp [SemVer.lessThan]
          omega
      have : (render v, mapGet annotTable (render v)) = p := by
        have h2 := mapGet_unique hnd (show (p.1, p.2) ∈ annotTable from hpmem)
        rw [hrv]
        rw [h2]
      rw [← this]
      exact List.mem_map_of_mem _ (List.mem_filter.mpr ⟨hperm.mem_iff.mpr hvin, hpred⟩)
  · have hvsnd : vs.Nodup := List.Nodup.of_map render (hmap ▸ hnd)
    have hsnd : (sortVersions vs).Nodup := hperm.nodup_iff.mpr hvsnd
    refine List.Nodup.map_on ?_ (List.Nodup.filter _ hsnd)
    intro v hv w hw he
    have hvin : v ∈ vs := hperm.mem_iff.mp (List.mem_filter.mp hv).1
    have hwin : w ∈ vs := hperm.mem_iff.mp (List.mem_filter.mp hw).1
    have h1 := (hprops v hvin).1
    have h2 := (hprops w hwin).1
    have hre : render v = render w := congrArg Prod.fst he
    rw [hre, h2] at h1
    exact (Option.some.inj h1).symm
  · have hpf : List.Pairwise (fun a b => SemVer.compare a b ≤ 0)
        ((sortVersions vs).filter
          (fun v => SemVer.greaterThan v start && !(SemVer.lessThan stop v))) :=
      List.Pairwise.sublist (List.filter_sublist _) hsorted
    rw [List.pairwise_map]
    refine List.Pairwise.imp_of_mem ?_ hpf
    intro a b hma hmb hr
    have hain : a ∈ vs := hperm.mem_iff.mp (List.mem_filter.mp hma).1
    have hbin : b ∈ vs := hperm.mem_iff.mp (List.mem_filter.mp hmb).1
    exact ⟨a, b, (hprops a hain).1, (hprops b hbin).1, hr⟩


/-- C3 counterexample: the claim quantifies over every annotation table,
but for the key "v1.2.0" — accepted by the parser, in range
1.1.0 < 1.2.0 <= 1.3.0, so the claim promises the entry text "A" — the
code looks the canonical rendering "1.2.0" up in the table, misses, and
emits the zero-value text: the computed message is "- ", not "- A". -/
theorem claim3_counterexample :
    NewVersion "v1.2.0" = some ⟨1, 2, 0, [], ""⟩ ∧
    SemVer.compare ⟨1, 1, 0, [], ""⟩ ⟨1, 2, 0, [], ""⟩ < 0 ∧
    SemVer.compare ⟨1, 2, 0, [], ""⟩ ⟨1, 3, 0, [], ""⟩ ≤ 0 ∧
    computeMessages [("v1.2.0", "A")] "1.1.0" "1.3.0" = some ["- "] ∧
    (some ["- "] : Option (List String)) ≠ some ["- A"] := by decide

/-- Witness for C3 (amended) at the spec's worked example, including the
concrete result ["- A", "- B"] with "C" excluded. -/
theorem claim3_witness :
    (exampleAnnotTable.map Prod.fst).Nodup ∧
    NewVersion "1.1.0" = some ⟨1, 1, 0, [], ""⟩ ∧
    NewVersion "1.3.0" = some ⟨1, 3, 0, [], ""⟩ ∧
    computeMessages exampleAnnotTable "1.1.0" "1.3.0" = some ["- A", "- B"] ∧
    (∃ sel : List (String × String),
      computeMessages exampleAnnotTable "1.1.0" "1.3.0" =
        some (sel.map (fun p => "- " ++ p.2)) ∧
      (∀ p : String × String, p ∈ sel ↔ (p ∈ exampleAnnotTable ∧
        ∃ v, NewVersion p.1 = some v ∧
          SemVer.compare ⟨1, 1, 0, [], ""⟩ v < 0 ∧
          SemVer.compare v ⟨1, 3, 0, [], ""⟩ ≤ 0)) ∧
      sel.Nodup ∧
      List.Pairwise (fun p q => ∃ v w, NewVersion p.1 = some v ∧
        NewVersion q.1 = some w ∧ SemVer.compare v w ≤ 0) sel) :=
  ⟨by decide, by decide, by decide, by decide,
    claim3_amended_notices exampleAnnotTable "1.1.0" "1.3.0" ⟨1, 1, 0, [], ""⟩
      ⟨1, 3, 0, [], ""⟩ (by decide)
      (by
        intro p hp
        fin_cases hp
        · exact ⟨⟨1, 2, 0, [], ""⟩, by decide, by decide, by decide⟩
        · exact ⟨⟨1, 3, 0, [], ""⟩, by decide, by decide, by decide⟩
        · exact ⟨⟨2, 0, 0, [], ""⟩, by decide, by decide, by decide⟩)
      (by decide) (by decide) (by decide) (by decide)⟩

/-! ## Claim C5 (amended): malformed keys panic -/

lemma parseAll_none : ∀ {ks : List String} {k : String},
    k ∈ ks → NewVersion k = none → parseAll ks = none
  | [], _, hk, _ => absurd hk (by simp)
  | k0 :: ks, k, hk, hbad => by
    rcases List.mem_cons.mp hk with rfl | h2
    · simp [parseAll, hbad]
    · cases hv : NewVersion k0 with
      | none => simp [parseAll, hv]
      | some u => simp [parseAll, hv, parseAll_none h2 hbad]

/-- C5 (amended): the notice computation parses every annotation key
with `semver.MustParse`, which panics on a malformed key: one bad key
aborts the whole computation (nothing is discarded or logged). -/
theorem claim5_amended_panic (annotTable : List (String × String)) (cur tgt k : String)
    (hk : k ∈ annotTable.map Prod.fst) (hbad : NewVersion k = none) :
    computeMessages annotTable cur tgt = none := by
  simp [computeMessages, parseAll_none hk hbad]

/-- Witness for C5 (amended) at a concrete one-entry table. -/
theorem claim5_witness :
    "oops" ∈ ([("oops", "X")].map Prod.fst) ∧
    NewVersion "oops" = none ∧
    computeMessages [("oops", "X")] "0.1.0" "1.0.0" = none :=
  ⟨by decide, by decide,
    claim5_amended_panic [("oops", "X")] "0.1.0" "1.0.0" "oops" (by decide) (by decide)⟩

/-- C5 counterexample: the claim says a malformed key is discarded and
the computation does not fail; with the sole key unparsable the claimed
behavior would yield `some []`, but the computation panics (`none`). -/
theorem claim5_counterexample :
    NewVersion "not-a-version" = none ∧
    computeMessages [("not-a-version", "X")] "0.1.0" "1.0.0" = none ∧
    (none : Option (List String)) ≠ some [] := by decide


/-! ## Claim C2 (amended): the "unset" sentinel -/

/-- C2 (amended): in automatic mode (the default), a build version of
"unset" fails immediately — empty event trace (no network call, no
installer), untouched world, and an error outcome. -/
theorem claim2_amended_unsupported (annotTable : List (String × String))
    (goos goarch : String) (env : Env) (w : World) :
    selfUpdateRunE annotTable "unset" goos goarch false env w =
      ([], w, .auto .failedUnsupportedBuild) ∧
    RunOutcome.isError .failedUnsupportedBuild = true := by
  constructor
  · simp [selfUpdateRunE, run]
  · rfl

/-- C2 counterexample: the claim covers the interactive mode too, but
`selectTag` never consults the build version: invoked with version
"unset" and the hidden select flag, the command performs the releases
network call, prompts, downloads and even replaces the executable. -/
theorem claim2_counterexample :
    selfUpdateRunE afxAnnotTable "unset" "linux" "amd64" true envInteractive
        ⟨⟨[7], 493⟩⟩ =
      ([.netListReleases, .promptSelect, .netDownload, .unarchive,
        .openFile ["home", ".afx", "afx"],
        .installApply ["home", ".afx", "afx"] ["", "usr", "local", "bin", "afx"]],
        ⟨⟨[9, 9], 493⟩⟩, .tag .applied) ∧
    Event.netListReleases ∈
      (selfUpdateRunE afxAnnotTable "unset" "linux" "amd64" true envInteractive
        ⟨⟨[7], 493⟩⟩).1 := by
  constructor
  · rfl
  · rw [(by rfl : (selfUpdateRunE afxAnnotTable "unset" "linux" "amd64" true envInteractive
      ⟨⟨[7], 493⟩⟩).1 = [.netListReleases, .promptSelect, .netDownload, .unarchive,
        .openFile ["home", ".afx", "afx"],
        .installApply ["home", ".afx", "afx"] ["", "usr", "local", "bin", "afx"]])]
    simp

/-! ## Claim C4: already up to date -/

/-- C4: in automatic mode, when the detected release's version is less
than or equal to the current version, the command stops after the single
detection call with the "already latest" outcome — no prompt, no
install — and that outcome is a success, not an error. -/
theorem claim4_up_to_date (annotTable : List (String × String)) (version goos goarch : String)
    (env : Env) (w : World) (latest : Release) (cur : SemVer)
    (hd : env.detect = .found latest)
    (hcur : NewVersion version = some cur)
    (hle : SemVer.compare latest.version cur ≤ 0) :
    run annotTable version goos goarch env w = ([.netDetectLatest], w, .upToDate) ∧
    RunOutcome.isError .upToDate = false := by
  have hvne : version ≠ "unset" := by
    intro he
    rw [he, show NewVersion "unset" = none from rfl] at hcur
    exact absurd hcur (by simp)
  have hguard : releaseLessOrEqual latest version = true := by
    rw [releaseLessOrEqual, hcur]
    simpa using hle
  constructor
  · simp [run, hvne, hd, hguard]
  · rfl

/-- Witness for C4: current version 1.0.0 equals the latest release. -/
theorem claim4_witness :
    ({ baseEnv with detect := .found release100 } : Env).detect = .found release100 ∧
    NewVersion "1.0.0" = some ⟨1, 0, 0, [], ""⟩ ∧
    SemVer.compare release100.version ⟨1, 0, 0, [], ""⟩ ≤ 0 ∧
    (run afxAnnotTable "1.0.0" "linux" "amd64" { baseEnv with detect := .found release100 }
        ⟨⟨[7], 493⟩⟩ = ([.netDetectLatest], ⟨⟨[7], 493⟩⟩, .upToDate) ∧
      RunOutcome.isError .upToDate = false) :=
  ⟨rfl, by decide, by decide,
    claim4_up_to_date afxAnnotTable "1.0.0" "linux" "amd64"
      { baseEnv with detect := .found release100 } ⟨⟨[7], 493⟩⟩ release100
      ⟨1, 0, 0, [], ""⟩ rfl (by decide) (by decide)⟩

/-! ## Claim C6: no compatible release -/

/-- C6: in automatic mode, a found=false answer from DetectLatest never
reaches the installer: the command stops with the NoCompatibleRelease
error naming the running platform, an outcome distinct from a transport
error. -/
theorem claim6_no_release (annotTable : List (String × String)) (version goos goarch : String)
    (env : Env) (w : World)
    (hv : version ≠ "unset") (hd : env.detect = .notFound) :
    run annotTable version goos goarch env w =
      ([.netDetectLatest], w, .failedNoRelease goos goarch) ∧
    RunOutcome.isError (.failedNoRelease goos goarch) = true ∧
    (∀ e, (RunOutcome.failedNoRelease goos goarch) ≠ .failedDetect e) := by
  refine ⟨by simp [run, hv, hd], rfl, fun e h => by cases h⟩

/-- Witness for C6 with the baseline environment. -/
theorem claim6_witness :
    ("1.0.0" : String) ≠ "unset" ∧
    baseEnv.detect = .notFound ∧
    (run afxAnnotTable "1.0.0" "linux" "amd64" baseEnv ⟨⟨[7], 493⟩⟩ =
        ([.netDetectLatest], ⟨⟨[7], 493⟩⟩, .failedNoRelease "linux" "amd64") ∧
      RunOutcome.isError (.failedNoRelease "linux" "amd64") = true ∧
      (∀ e, (RunOutcome.failedNoRelease "linux" "amd64") ≠ .failedDetect e)) :=
  ⟨by decide, rfl,
    claim6_no_release afxAnnotTable "1.0.0" "linux" "amd64" baseEnv ⟨⟨[7], 493⟩⟩
      (by decide) rfl⟩

/-! ## Claim C7 (amended): declining the prompt -/

/-- C7 (amended): in automatic mode, answering "no" to the confirmation
prompt ends the command as a no-op success: nil error, no install event,
and the world (the on-disk executable) returned unchanged. -/
theorem claim7_amended_decline (annotTable : List (String × String))
    (version goos goarch : String) (env : Env) (w : World) (latest : Release)
    (hv : version ≠ "unset") (hd : env.detect = .found latest)
    (hgt : releaseLessOrEqual latest version = false)
    (hc : env.confirm = .ok false) :
    run annotTable version goos goarch env w =
      ([.netDetectLatest, .promptConfirm], w, .declined) ∧
    RunOutcome.isError .declined = false := by
  constructor
  · simp [run, hv, hd, hgt, hc]
  · rfl

/-- Witness for C7 (amended): current 1.0.0, latest 2.0.0, user says no. -/
theorem claim7_witness :
    ("1.0.0" : String) ≠ "unset" ∧
    ({ baseEnv with detect := .found release200 } : Env).detect = .found release200 ∧
    releaseLessOrEqual release200 "1.0.0" = false ∧
    ({ baseEnv with detect := .found release200 } : Env).confirm = .ok false ∧
    (run afxAnnotTable "1.0.0" "linux" "amd64" { baseEnv with detect := .found release200 }
        ⟨⟨[7], 493⟩⟩ = ([.netDetectLatest, .promptConfirm], ⟨⟨[7], 493⟩⟩, .declined) ∧
      RunOutcome.isError .declined = false) :=
  ⟨by decide, rfl, by decide, rfl,
    claim7_amended_decline afxAnnotTable "1.0.0" "linux" "amd64"
      { baseEnv with detect := .found release200 } ⟨⟨[7], 493⟩⟩ release200
      (by decide) rfl (by decide) rfl⟩

/-- C7 counterexample: in interactive mode a cancelled tag selection is
not a no-op success.  The source discards the prompt's error, leaves the
tag at its zero value "", finds no release with that tag, and the
download step then fails: the command returns an error (the executable
is untouched, but the outcome is a failure, not nil). -/
theorem claim7_counterexample :
    selectTag { envInteractive with ask := none } ⟨⟨[7], 493⟩⟩ =
      ([.netListReleases, .promptSelect, .netDownload], ⟨⟨[7], 493⟩⟩,
        .failedDownload "no asset found") ∧
    TagOutcome.isError (.failedDownload "no asset found") = true := by
  constructor
  · rfl
  · rfl

/-! ## Claim C9: the file handed to update.Apply -/

lemma downloadAsset_mem {env : Env} {assets : List Asset} {asset : Asset}
    (h : downloadAsset env assets = .ok asset) : asset ∈ assets := by
  unfold downloadAsset at h
  rcases hp : env.pick assets with _ | i <;> simp only [hp] at h
  · exact absurd h (by simp)
  · split at h
    · obtain rfl := Except.ok.inj h
      exact List.get_mem _ _ _
    · exact absurd h (by simp)

/-- C9: whatever release, asset and prompt answers the environment
supplies, any file `selectTag` hands to the installer is the file
literally named `afx` in `$HOME/.afx`; and if opening that file fails,
the command errors out with the world (the executable) unchanged and no
install attempted. -/
theorem claim9_install_source (env : Env) (w : World) (tr : List Event) (w2 : World)
    (o : TagOutcome) (hsel : selectTag env w = (tr, w2, o)) :
    (∀ p exe, Event.installApply p exe ∈ tr → p = [env.home, ".afx", "afx"]) ∧
    (o = .failedOpen → w2 = w ∧ ∀ p exe, Event.installApply p exe ∉ tr) := by
  unfold selectTag at hsel
  rcases hr : env.releases with e | body <;> simp only [hr] at hsel
  · obtain ⟨rfl, rfl, rfl⟩ := hsel
    constructor
    · intro p exe hmem
      simp at hmem
    · intro hc
      exact absurd hc (by simp)
  · rcases hdl : downloadAsset env
        (List.map (fun a =>
            ({ name := a.name, home := [env.home, ".afx"],
               path := [env.home, ".afx", a.name], url := a.url } : Asset))
          (((body.find? (fun r => r.tagName == env.ask.getD "")).map
            (fun r => r.assets)).getD []))
      with e | asset <;> simp only [hdl] at hsel
    · obtain ⟨rfl, rfl, rfl⟩ := hsel
      constructor
      · intro p exe hmem
        simp at hmem
      · intro hc
        exact absurd hc (by simp)
    · have hhome : asset.home = [env.home, ".afx"] := by
        obtain ⟨a0, -, rfl⟩ := List.mem_map.mp (downloadAsset_mem hdl)
        rfl
      rcases hu : env.unarchive with e | u <;> simp only [hu] at hsel
      · obtain ⟨rfl, rfl, rfl⟩ := hsel
        constructor
        · intro p exe hmem
          simp at hmem
        · intro hc
          exact absurd hc (by simp)
      · rcases hf : env.file (asset.home ++ ["afx"]) with _ | contents <;>
          simp only [hf] at hsel
        · obtain ⟨rfl, rfl, rfl⟩ := hsel
          constructor
          · intro p exe hmem
            simp at hmem
          · intro _
            refine ⟨rfl, ?_⟩
            intro p exe
            simp
        · rcases he : env.exePath with _ | exe0 <;> simp only [he] at hsel
          · obtain ⟨rfl, rfl, rfl⟩ := hsel
            constructor
            · intro p exe hmem
              simp at hmem
            · intro hc
              exact absurd hc (by simp)
          · rcases ha : env.apply with e2 | u2 <;> simp only [ha] at hsel
            · obtain ⟨rfl, rfl, rfl⟩ := hsel
              constructor
              · intro p exe hmem
                simp at hmem
                rw [hmem.1, hhome]
                rfl
              · intro hc
                exact absurd hc (by simp)
            · obtain ⟨rfl, rfl, rfl⟩ := hsel
              constructor
              · intro p exe hmem
                simp at hmem
                rw [hmem.1, hhome]
                rfl
              · intro hc
                exact absurd hc (by simp)

/-- Witness for C9 at the end-to-end interactive environment. -/
theorem claim9_witness :
    selectTag envInteractive ⟨⟨[7], 493⟩⟩ =
      ([.netListReleases, .promptSelect, .netDownload, .unarchive,
        .openFile ["home", ".afx", "afx"],
        .installApply ["home", ".afx", "afx"] ["", "usr", "local", "bin", "afx"]],
        ⟨⟨[9, 9], 493⟩⟩, .applied) ∧
    ((∀ p exe, Event.installApply p exe ∈
        [Event.netListReleases, Event.promptSelect, Event.netDownload, Event.unarchive,
          Event.openFile ["home", ".afx", "afx"],
          Event.installApply ["home", ".afx", "afx"] ["", "usr", "local", "bin", "afx"]] →
        p = [envInteractive.home, ".afx", "afx"]) ∧
      (TagOutcome.applied = .failedOpen →
        (⟨⟨[9, 9], 493⟩⟩ : World) = ⟨⟨[7], 493⟩⟩ ∧
        ∀ p exe, Event.installApply p exe ∉
          [Event.netListReleases, Event.promptSelect, Event.netDownload, Event.unarchive,
            Event.openFile ["home", ".afx", "afx"],
            Event.installApply ["home", ".afx", "afx"] ["", "usr", "local", "bin", "afx"]])) :=
  ⟨rfl, claim9_install_source envInteractive ⟨⟨[7], 493⟩⟩ _ _ _ rfl⟩

/-! ## Claim C10: panic after a successful install -/

lemma parseAll_length : ∀ {ks : List String} {vs : List SemVer},
    parseAll ks = some vs → vs.length = ks.length
  | [], vs, h => by
    rw [show parseAll [] = some [] from rfl] at h
    obtain rfl := Option.some.inj h
    rfl
  | k :: ks, vs, h => by
    unfold parseAll at h
    rcases hk : NewVersion k with _ | u <;> rw [hk] at h
    · exact absurd h (by simp)
    · rcases hp : parseAll ks with _ | vs2 <;> rw [hp] at h
      · exact absurd h (by simp)
      · obtain rfl := Option.some.inj h
        simp [parseAll_length hp]

lemma computeMessages_panics {annotTable : List (String × String)} {cur : String}
    (tgt : String) (hbad : NewVersion cur = none) (hann : annotTable ≠ []) :
    computeMessages annotTable cur tgt = none := by
  unfold computeMessages
  rcases hp : parseAll (annotTable.map Prod.fst) with _ | vs
  · rfl
  · have hlen : vs.length = annotTable.length := by
      rw [parseAll_length hp, List.length_map]
    have hne : sortVersions vs ≠ [] := by
      intro he
      have h1 : vs.length = 0 := by
        rw [← (sortVersions_perm vs).length_eq, he]
        rfl
      rw [h1] at hlen
      rcases annotTable with _ | ⟨p, rest⟩
      · exact hann rfl
      · simp at hlen
    change noticesLoop annotTable cur tgt (sortVersions vs) = none
    rcases hs : sortVersions vs with _ | ⟨v, rest⟩
    · exact absurd hs hne
    · simp only [noticesLoop, hbad]

/-- C10: with a build version that is neither "unset" nor parseable (for
example a dev build stamped "dev"), automatic mode runs all the way
through a successful install — LessOrEqual treats the unparsable current
version as "update needed" — and then `semver.MustParse(Version)` inside
the notice loop panics: the command crashes only after the on-disk
executable has already been replaced with the new binary. -/
theorem claim10_panic_after_install (annotTable : List (String × String))
    (version goos goarch : String) (env : Env) (w : World) (latest : Release)
    (exe : List String)
    (hv : version ≠ "unset") (hbad : NewVersion version = none)
    (hd : env.detect = .found latest) (hc : env.confirm = .ok true)
    (hexe : env.exePath = some exe) (hup : env.updateTo = .ok ())
    (hann : annotTable ≠ []) :
    run annotTable version goos goarch env w =
      ([.netDetectLatest, .promptConfirm, .installUpdateTo exe],
        ⟨⟨env.assetBytes, w.exe.mode⟩⟩, .panicked) ∧
    RunOutcome.isError .panicked = true ∧
    Event.installUpdateTo exe ∈
      [Event.netDetectLatest, Event.promptConfirm, Event.installUpdateTo exe] := by
  have hguard : releaseLessOrEqual latest version = false := by
    rw [releaseLessOrEqual, hbad]
  have hcm := computeMessages_panics (render latest.version) hbad hann
  refine ⟨?_, rfl, by simp⟩
  simp [run, hv, hd, hguard, hc, hexe, hup, hcm]

/-- Witness for C10: build version "dev", latest release 2.0.0, user
confirms, install succeeds, then the notice loop panics. -/
theorem claim10_witness :
    ("dev" : String) ≠ "unset" ∧
    NewVersion "dev" = none ∧
    ({ baseEnv with detect := .found release200, confirm := .ok true } : Env).detect =
      .found release200 ∧
    ({ baseEnv with detect := .found release200, confirm := .ok true } : Env).confirm =
      .ok true ∧
    ({ baseEnv with detect := .found release200, confirm := .ok true } : Env).exePath =
      some ["", "usr", "local", "bin", "afx"] ∧
    ({ baseEnv with detect := .found release200, confirm := .ok true } : Env).updateTo =
      .ok () ∧
    afxAnnotTable ≠ [] ∧
    (run afxAnnotTable "dev" "linux" "amd64"
        { baseEnv with detect := .found release200, confirm := .ok true } ⟨⟨[7], 493⟩⟩ =
      ([.netDetectLatest, .promptConfirm,
        .installUpdateTo ["", "usr", "local", "bin", "afx"]],
        ⟨⟨[1, 2, 3], 493⟩⟩, .panicked) ∧
      RunOutcome.isError .panicked = true ∧
      Event.installUpdateTo ["", "usr", "local", "bin", "afx"] ∈
        [Event.netDetectLatest, Event.promptConfirm,
          Event.installUpdateTo ["", "usr", "local", "bin", "afx"]]) :=
  ⟨by decide, by decide, rfl, rfl, rfl, rfl, by decide,
    claim10_panic_after_install afxAnnotTable "dev" "linux" "amd64"
      { baseEnv with detect := .found release200, confirm := .ok true } ⟨⟨[7], 493⟩⟩
      release200 ["", "usr", "local", "bin", "afx"]
      (by decide) (by decide) rfl rfl rfl rfl (by decide)⟩

/-! ## Claim C1: installer atomicity -/

/-- C1: for every source binary, failure injection and initial
filesystem, the install either fails with the target file (bytes and
mode) exactly as it was, or succeeds with the target holding exactly the
new bytes under the old mode — never a partial mix. -/
theorem claim1_installer_atomic (src : List Nat) (failAt : Option InstallFailure)
    (fs : InstallFS) :
    ((install src failAt fs).1 ≠ .ok ∧ (install src failAt fs).2.target = fs.target) ∨
    ((install src failAt fs).1 = .ok ∧
      (install src failAt fs).2.target = { bytes := src, mode := fs.target.mode }) := by
  unfold install
  rcases failAt with _ | f
  · by_cases h : src.isEmpty
    · refine Or.inl ⟨?_, ?_⟩ <;> simp [h]
    · refine Or.inr ⟨?_, ?_⟩ <;> simp [h]
  · rcases f with n | _
    · refine Or.inl ⟨?_, ?_⟩ <;> simp
    · by_cases h : src.isEmpty
      · refine Or.inl ⟨?_, ?_⟩ <;> simp [h]
      · refine Or.inl ⟨?_, ?_⟩ <;> simp [h]

/-- Witness for C1: a failing temp-file write (simulated disk full after
one byte) leaves the two-byte target untouched. -/
theorem claim1_witness :
    ((install [1, 2] (some (.writeTemp 1)) ⟨⟨[9, 9], 7⟩, none⟩).1 ≠ .ok ∧
      (install [1, 2] (some (.writeTemp 1)) ⟨⟨[9, 9], 7⟩, none⟩).2.target = ⟨[9, 9], 7⟩) ∨
    ((install [1, 2] (some (.writeTemp 1)) ⟨⟨[9, 9], 7⟩, none⟩).1 = .ok ∧
      (install [1, 2] (some (.writeTemp 1)) ⟨⟨[9, 9], 7⟩, none⟩).2.target =
        { bytes := [1, 2], mode := 7 }) :=
  claim1_installer_atomic [1, 2] (some (.writeTemp 1)) ⟨⟨[9, 9], 7⟩, none⟩
